import Mathlib

/-!
Verification development for the Zemni benchmark evaluation core.

This file gives a shallow embedding, in Lean 4, of the numeric heart of the
repository: the metrics aggregator (`benchmark/evaluators/metrics.py`), the
significance analyzer (`benchmark/scripts/analyze_significance.py`), the
reliability format checker (`benchmark/evaluators/format_checker.py`), the
judge-consensus evaluator (`benchmark/evaluators/llm_judge.py`) and the
corpus-merge step of `benchmark/run_benchmark.py`, together with theorems
checking the repository's specification against these embeddings.

Conventions of the embedding:
* Python floats are modelled as exact rationals (`ℚ`).  All arithmetic in the
  embedded code paths is addition/subtraction/multiplication/division, which
  the claims treat as exact real arithmetic.
* `math.sqrt` appears in the sources only inside `statistics.stdev` and in the
  standard-error / CI-margin computation.  Square roots of rationals are
  irrational in general, so the embedding carries the *squares* of those
  quantities (`stdDevSq`, `stderrSq`) plus the critical multiplier `tCrit`;
  the real-valued fields of the source are recovered as
  `std_dev = √stdDevSq`, `stderr = √stderrSq`,
  `ci = mean ± tCrit·√stderrSq`.  Since `√` is injective on nonnegative
  rationals, equalities and inequalities of the squared quantities faithfully
  decide the corresponding facts about the source's real values.
* Python dictionaries are modelled as association lists in insertion order;
  `dict.get` with a default becomes an `Option`-valued lookup plus `getD`.
* Python text is modelled as `List Char`.
-/

namespace Bench

/-! ## Rational statistics helpers (embedding `statistics.mean`, `statistics.median`,
`statistics.stdev` and friends, as used by the sources) -/

/-- `statistics.mean` over rationals: sum divided by length.  The sources only
call it on non-empty lists (guarded by `if scores else 0`). -/
def meanQ (l : List ℚ) : ℚ := l.sum / l.length

/-- Ascending stable sort, as Python's `sorted`. -/
def sortQ (l : List ℚ) : List ℚ := l.insertionSort (· ≤ ·)

/-- `statistics.median`: middle element of the sorted list for odd length,
average of the two middle elements for even length. -/
def medianQ (l : List ℚ) : ℚ :=
  let s := sortQ l
  let n := s.length
  if n % 2 = 1 then s.getD (n / 2) 0
  else (s.getD (n / 2 - 1) 0 + s.getD (n / 2) 0) / 2

/-- Sum of squared deviations from the mean. -/
def sumSqDev (l : List ℚ) : ℚ := (l.map (fun x => (x - meanQ l) ^ 2)).sum

/-- Square of `statistics.stdev l` (sample standard deviation): the sample
variance, with denominator `n - 1`.  Only used for `l.length ≥ 2`. -/
def sampleVarQ (l : List ℚ) : ℚ := sumSqDev l / ((l.length : ℚ) - 1)

/-- Population variance (denominator `n`): the square of the *population*
standard deviation that the specification text talks about. -/
def popVarQ (l : List ℚ) : ℚ := sumSqDev l / (l.length : ℚ)

/-- Python `max` over a non-empty list (`0` as a don't-care value for `[]`;
the sources guard every call by non-emptiness). -/
def maxQ (l : List ℚ) : ℚ :=
  match l with
  | [] => 0
  | x :: xs => xs.foldl max x

/-- Python `min` over a non-empty list. -/
def minQ (l : List ℚ) : ℚ :=
  match l with
  | [] => 0
  | x :: xs => xs.foldl min x

/-! ## `metrics.py`: `calculate_percentiles` -/

/-- The percentile set returned by `calculate_percentiles` (non-empty input). -/
structure Percentiles where
  p0 : ℚ
  p25 : ℚ
  p50 : ℚ
  p75 : ℚ
  p95 : ℚ
  p99 : ℚ
  p100 : ℚ
  deriving Repr, DecidableEq

/-- The inner `percentile(p)` helper of `calculate_percentiles`: linear
interpolation between order statistics at index `(n-1)·p`. -/
def percentileAt (s : List ℚ) (p : ℚ) : ℚ :=
  let n := s.length
  if n = 1 then s.getD 0 0
  else
    let index : ℚ := ((n : ℚ) - 1) * p
    let lower : ℕ := ⌊index⌋.toNat
    let upper : ℕ := min (lower + 1) (n - 1)
    let weight : ℚ := index - lower
    s.getD lower 0 * (1 - weight) + s.getD upper 0 * weight

/-- `calculate_percentiles`: `none` for the empty list (Python returns `{}`),
otherwise the fixed percentile set over the sorted values. -/
def calculatePercentiles (values : List ℚ) : Option Percentiles :=
  if values = [] then none
  else
    let s := sortQ values
    some
      { p0 := minQ s
        p25 := percentileAt s (25 / 100)
        p50 := percentileAt s (50 / 100)
        p75 := percentileAt s (75 / 100)
        p95 := percentileAt s (95 / 100)
        p99 := percentileAt s (99 / 100)
        p100 := maxQ s }

/-! ## `metrics.py`: input records and score-series extraction

`aggregate_model_metrics` consumes a list of result dicts.  It reads the keys
`reliability_score`, `cost`, `latency_ms` (each only when present) and
`judge_evaluation.aggregated_scores` (a dict mapping a dimension name to a
stats dict of which only `"mean"` is read; a missing `judge_evaluation` or
`aggregated_scores` behaves like an empty dict, which we model by the empty
association list). -/

/-- One aggregated judge dimension as read by the metrics aggregator: only the
`"mean"` entry of the per-dimension stats dict is accessed. -/
structure JudgeDimStats where
  mean : ℚ
  deriving Repr, DecidableEq

/-- The slice of a result record that `aggregate_model_metrics` reads. -/
structure ResultRecord where
  reliability_score : Option ℚ
  cost : Option ℚ
  latency_ms : Option ℚ
  /-- `judge_evaluation.aggregated_scores`, `[]` when absent. -/
  aggregated_scores : List (String × JudgeDimStats)
  deriving Repr, DecidableEq

/-- Association-list lookup, modelling Python `dict` access / `in` test. -/
def lookupStr {α : Type} (l : List (String × α)) (k : String) : Option α :=
  (l.find? (fun p => p.1 == k)).map (fun p => p.2)

/-- The fixed list `EVALUATION_DIMENSIONS` of `metrics.py`. -/
def EVALUATION_DIMENSIONS : List String :=
  ["factual_accuracy", "completeness", "clarity_structure",
   "language_quality", "usability", "technical_correctness"]

/-- `reliability_scores`: collected from records carrying the key. -/
def reliabilityScores (rs : List ResultRecord) : List ℚ :=
  rs.filterMap (fun r => r.reliability_score)

/-- `quality_overall` (and the identical, otherwise unused `quality_scores`):
first of `quality`, `question_quality`, `clarity` present in the record's
aggregated judge scores. -/
def qualityOverall (rs : List ResultRecord) : List ℚ :=
  rs.filterMap (fun r =>
    match lookupStr r.aggregated_scores "quality" with
    | some s => some s.mean
    | none =>
      match lookupStr r.aggregated_scores "question_quality" with
      | some s => some s.mean
      | none => (lookupStr r.aggregated_scores "clarity").map (fun s => s.mean))

/-- The per-dimension series collected into `evaluation_scores[dim]` (also
used, with the fixed dimension names, for `factual_scores` and
`completeness_scores`). -/
def dimScores (rs : List ResultRecord) (dim : String) : List ℚ :=
  rs.filterMap (fun r => (lookupStr r.aggregated_scores dim).map (fun s => s.mean))

/-- `costs` series. -/
def costSeries (rs : List ResultRecord) : List ℚ := rs.filterMap (fun r => r.cost)

/-- `latencies` series. -/
def latencySeries (rs : List ResultRecord) : List ℚ := rs.filterMap (fun r => r.latency_ms)

/-- `all_score_values`: the concatenation inspected by the legacy-scale
heuristic (reliability, quality, factual, completeness, then the six
evaluation dimensions). -/
def allScoreValues (rs : List ResultRecord) : List ℚ :=
  reliabilityScores rs ++ qualityOverall rs ++ dimScores rs "factual_accuracy" ++
    dimScores rs "completeness" ++ EVALUATION_DIMENSIONS.flatMap (fun d => dimScores rs d)

/-- `min_pos` of the legacy-scale heuristic: the minimum positive collected
value when one exists, else `0`. -/
def minPosOf (vals : List ℚ) : ℚ :=
  if vals.any (fun v => 0 < v) then minQ (vals.filter (fun v => 0 < v)) else 0

/-- The legacy 0–10 auto-upscale trigger of `aggregate_model_metrics`
(lines 189–193): fires iff the collected values are non-empty,
`0 < max_val ≤ 10`, and `min_pos > 0`. -/
def scaleFires (rs : List ResultRecord) : Bool :=
  let vals := allScoreValues rs
  if vals = [] then false
  else decide (0 < maxQ vals) && decide (maxQ vals ≤ 10) && decide (0 < minPosOf vals)

/-- Multiplies a series by 10 when the legacy-scale correction fired. -/
def applyScale (b : Bool) (l : List ℚ) : List ℚ :=
  if b then l.map (fun v => v * 10) else l

/-- Reliability series actually aggregated (after the scale pre-pass). -/
def sReliability (rs : List ResultRecord) : List ℚ :=
  applyScale (scaleFires rs) (reliabilityScores rs)

/-- Quality series actually aggregated. -/
def sQuality (rs : List ResultRecord) : List ℚ :=
  applyScale (scaleFires rs) (qualityOverall rs)

/-- Per-dimension series actually aggregated (also provides the scaled
`factual_scores` and `completeness_scores`). -/
def sDim (rs : List ResultRecord) (dim : String) : List ℚ :=
  applyScale (scaleFires rs) (dimScores rs dim)

/-! ## `metrics.py`: per-series statistics blocks -/

/-- The stats block built for `reliability`, `content_quality` and each
evaluation dimension: mean/median/std-dev/min/max/percentiles, each guarded
by emptiness exactly as in the source (`std_dev` stored as its square). -/
structure SeriesStats where
  mean : ℚ
  median : ℚ
  stdDevSq : ℚ
  min : ℚ
  max : ℚ
  percentiles : Option Percentiles
  deriving Repr, DecidableEq

/-- The stats block built for `factual_accuracy` and `completeness`
(no min/max keys in the source dict). -/
structure SeriesStatsNR where
  mean : ℚ
  median : ℚ
  stdDevSq : ℚ
  percentiles : Option Percentiles
  deriving Repr, DecidableEq

/-- Builds the full stats block from a series, mirroring the guarded
expressions of `aggregate_model_metrics`. -/
def seriesStats (l : List ℚ) : SeriesStats :=
  { mean := if l = [] then 0 else meanQ l
    median := if l = [] then 0 else medianQ l
    stdDevSq := if 1 < l.length then sampleVarQ l else 0
    min := if l = [] then 0 else minQ l
    max := if l = [] then 0 else maxQ l
    percentiles := calculatePercentiles l }

/-- Builds the min/max-less stats block. -/
def seriesStatsNR (l : List ℚ) : SeriesStatsNR :=
  { mean := if l = [] then 0 else meanQ l
    median := if l = [] then 0 else medianQ l
    stdDevSq := if 1 < l.length then sampleVarQ l else 0
    percentiles := calculatePercentiles l }

/-! ## `metrics.py`: `calculate_universal_weighted_score` -/

/-- Input entry of `calculate_universal_weighted_score`: a per-dimension stats
dict in which the `"mean"` key may be absent (the source checks
`"mean" in aggregated_scores[dimension]`). -/
structure UniStats where
  meanOpt : Option ℚ
  deriving Repr, DecidableEq

/-- The inner `get_score` helper: the dimension's mean when the dimension is
present with a `"mean"` key, else the default `50.0`. -/
def getScoreU (aggregated : List (String × UniStats)) (dim : String) : ℚ :=
  match lookupStr aggregated dim with
  | some u => match u.meanOpt with
    | some m => m
    | none => 50
  | none => 50

/-- `calculate_universal_weighted_score`: the fixed-weight blend over the five
weighted dimensions, clamped to `[1, 100]`. -/
def calculateUniversalWeightedScore (aggregated : List (String × UniStats)) : ℚ :=
  let weighted :=
    getScoreU aggregated "factual_accuracy" * (30 / 100) +
    getScoreU aggregated "completeness" * (25 / 100) +
    getScoreU aggregated "clarity_structure" * (20 / 100) +
    getScoreU aggregated "language_quality" * (15 / 100) +
    getScoreU aggregated "usability" * (10 / 100)
  max 1 (min 100 weighted)

/-! ## `metrics.py`: `aggregate_model_metrics` -/

/-- The slice of the benchmark config read by the aggregator
(`reliability_weight` / `quality_weight`, optional keys). -/
structure AggConfig where
  reliability_weight : Option ℚ
  quality_weight : Option ℚ
  deriving Repr, DecidableEq

/-- The aggregated metrics dict produced by `aggregate_model_metrics` for a
non-empty input (the `quality_categories` block, which merely repeats the
per-dimension means and the fixed weights, is not re-modelled). -/
structure ModelMetrics where
  reliability : SeriesStats
  content_quality : SeriesStats
  factual_accuracy : SeriesStatsNR
  completeness : SeriesStatsNR
  /-- The six evaluation-dimension blocks, in `EVALUATION_DIMENSIONS` order. -/
  evaluation : List (String × SeriesStats)
  cost_total : ℚ
  cost_mean : ℚ
  cost_median : ℚ
  latency_mean : ℚ
  test_count : ℕ
  cost_per_quality_point : ℚ
  cost_per_reliability_point : ℚ
  combined_score : ℚ
  universal_weighted_score : ℚ
  deriving Repr, DecidableEq

/-- The body of `aggregate_model_metrics` for non-empty input: score
extraction, the legacy-scale pre-pass, the per-series statistics, the cost
ratios, `combined_score`, the penalty-adjusted `overall_score` and
`universal_weighted_score`. -/
def aggregateCore (rs : List ResultRecord) (config : Option AggConfig) : ModelMetrics :=
  let fires := scaleFires rs
  let relS := applyScale fires (reliabilityScores rs)
  let qualS := applyScale fires (qualityOverall rs)
  let factS := applyScale fires (dimScores rs "factual_accuracy")
  let compS := applyScale fires (dimScores rs "completeness")
  let costs := costSeries rs
  let lats := latencySeries rs
  let reliability := seriesStats relS
  let content_quality := seriesStats qualS
  let factual := seriesStatsNR factS
  let completeness := seriesStatsNR compS
  let evaluation := EVALUATION_DIMENSIONS.map (fun d => (d, seriesStats (sDim rs d)))
  let costTotal := costs.sum
  let cpq := if 0 < costTotal ∧ 0 < content_quality.mean then
      costTotal / (content_quality.mean * rs.length) else 0
  let cpr := if 0 < costTotal ∧ 0 < content_quality.mean then
      (if 0 < reliability.mean then costTotal / (reliability.mean * rs.length) else 0)
    else 0
  let rw := ((config.map (fun c => c.reliability_weight)).join).getD (30 / 100)
  let qw := ((config.map (fun c => c.quality_weight)).join).getD (70 / 100)
  let combined := reliability.mean * rw + content_quality.mean * qw
  -- `overall_score` multiplies the base component by
  -- `consistency_penalty = 1 - min(0.2, (rel_std + qual_std)/200)`, an
  -- expression in the real-valued (square-root) std-devs, so its exact value
  -- is irrational in general.  No claim mentions `overall_score`, so the
  -- embedding omits that single derived field rather than model it
  -- unfaithfully (like the `quality_categories` block, omitted above).
  let universalAggregated : List (String × UniStats) :=
    evaluation.map (fun p => (p.1, ⟨some p.2.mean⟩))
  { reliability := reliability
    content_quality := content_quality
    factual_accuracy := factual
    completeness := completeness
    evaluation := evaluation
    cost_total := costTotal
    cost_mean := if costs = [] then 0 else meanQ costs
    cost_median := if costs = [] then 0 else medianQ costs
    latency_mean := if lats = [] then 0 else meanQ lats
    test_count := rs.length
    cost_per_quality_point := cpq
    cost_per_reliability_point := cpr
    combined_score := combined
    universal_weighted_score := calculateUniversalWeightedScore universalAggregated }

/-- `aggregate_model_metrics`: `none` models the empty dict returned for empty
input. -/
def aggregateModelMetrics (rs : List ResultRecord) (config : Option AggConfig) :
    Option ModelMetrics :=
  if rs = [] then none else some (aggregateCore rs config)

/-! ## `metrics.py`: `calculate_comparative_metrics`

The function consumes a dict mapping model id to an aggregated-metrics dict
and reads a handful of entries from each, every one through `.get` with a
default; the test suite calls it with hand-built partial dicts, so the
embedding keeps every read field optional. -/

/-- The slice of a per-model metrics dict read by
`calculate_comparative_metrics` (absent keys modelled as `none`). -/
structure CMetrics where
  reliability_mean : Option ℚ
  content_quality_mean : Option ℚ
  combined_score : Option ℚ
  overall_score : Option ℚ
  universal_weighted_score : Option ℚ
  cost_per_quality_point : Option ℚ
  cost_per_reliability_point : Option ℚ
  cost_total : Option ℚ
  deriving Repr, DecidableEq

/-- Python's `sorted(l, key=key, reverse=True)`: stable descending sort.
`insertionSort` with the non-strict relation `key b ≤ key a` inserts each
earlier element before later elements of equal key, reproducing Python's
stability. -/
def sortByDescQ {α : Type} (key : α → ℚ) (l : List α) : List α :=
  l.insertionSort (fun a b => key b ≤ key a)

/-- Python's `sorted(l, key=key)` (ascending, stable) over values that may be
`float('inf')`, modelled as `⊤` in `WithTop ℚ`. -/
def sortByAscW {α : Type} (key : α → WithTop ℚ) (l : List α) : List α :=
  l.insertionSort (fun a b => key a ≤ key b)

/-- Stable descending sort over `WithTop ℚ` keys. -/
def sortByDescW {α : Type} (key : α → WithTop ℚ) (l : List α) : List α :=
  l.insertionSort (fun a b => key b ≤ key a)

/-- The `rankings` / `value_scores` / `model_count` dict produced by
`calculate_comparative_metrics`. -/
structure ComparativeMetrics where
  by_reliability : List String
  by_content_quality : List String
  by_combined_score : List String
  by_overall_score : List String
  by_universal_score : List String
  by_cost_effectiveness : List String
  by_reliability_cost : List String
  by_value : List String
  value_scores : List (String × WithTop ℚ)
  model_count : ℕ
  deriving Repr, DecidableEq

/-- `calculate_comparative_metrics` (lines 368–444 of `metrics.py`): rankings
over *all* models of the input dict by the various criteria; `none` models
the empty dict returned for empty input.  Note the function's only
parameter is the metrics dict — it receives no per-task sample counts. -/
def calculateComparativeMetrics (input : List (String × CMetrics)) :
    Option ComparativeMetrics :=
  if input = [] then none
  else
    let models := input.map (fun p => p.1)
    let getM := fun (m : String) => lookupStr input m
    let valueScores : List (String × WithTop ℚ) :=
      input.map (fun p =>
        let combined := p.2.combined_score.getD 0
        let totalCost := p.2.cost_total.getD 0
        (p.1, if 0 < totalCost then ((combined / totalCost : ℚ) : WithTop ℚ)
              else if 0 < combined then ⊤ else (0 : WithTop ℚ)))
    some
      { by_reliability :=
          sortByDescQ (fun m => ((getM m).bind (fun c => c.reliability_mean)).getD 0) models
        by_content_quality :=
          sortByDescQ (fun m => ((getM m).bind (fun c => c.content_quality_mean)).getD 0) models
        by_combined_score :=
          sortByDescQ (fun m => ((getM m).bind (fun c => c.combined_score)).getD 0) models
        by_overall_score :=
          sortByDescQ (fun m => ((getM m).bind (fun c => c.overall_score)).getD 0) models
        by_universal_score :=
          sortByDescQ (fun m => ((getM m).bind (fun c => c.universal_weighted_score)).getD 0) models
        by_cost_effectiveness :=
          sortByAscW (fun m =>
            (((getM m).bind (fun c => c.cost_per_quality_point)).map
              (fun q => (q : WithTop ℚ))).getD ⊤) models
        by_reliability_cost :=
          sortByAscW (fun m =>
            (((getM m).bind (fun c => c.cost_per_reliability_point)).map
              (fun q => (q : WithTop ℚ))).getD ⊤) models
        by_value :=
          sortByDescW (fun m => (lookupStr valueScores m).getD 0) models
        value_scores := valueScores
        model_count := models.length }

/-! ## `analyze_significance.py`: `t_critical` and `compute_ci` -/

/-- `t_critical(confidence, df)`: the normal approximation `1.96` (95%) or
`2.576` (99%) for `df > 30`, a rough interpolation for other confidence
levels, and the fixed conservative table for `df ≤ 30`. -/
def tCritical (confidence : ℚ) (df : ℤ) : ℚ :=
  if 30 < df then
    if confidence = 95 / 100 then 196 / 100
    else if confidence = 99 / 100 then 2576 / 1000
    else 196 / 100 + (confidence - 95 / 100) * 4
  else
    if df ≤ 10 then 23 / 10
    else if df ≤ 20 then 21 / 10
    else 2

/-- The `MetricWithCI` record of `analyze_significance.py` in the squared
encoding: the source's fields are recovered as `std_dev = √stdDevSq`,
`stderr = √stderrSq`, `ci.lower = mean - tCrit·√stderrSq`,
`ci.upper = mean + tCrit·√stderrSq` (for the empty-input record the source
builds `ci = (0, 0)` directly without a multiplier; `tCrit = 0` encodes
that zero margin). -/
structure MetricWithCI where
  mean : ℚ
  stdDevSq : ℚ
  n : ℕ
  stderrSq : ℚ
  tCrit : ℚ
  deriving Repr, DecidableEq

/-- `compute_ci(values, confidence)`: mean, sample std-dev (`0` when `n = 1`),
`stderr = std_dev/√n` and the CI multiplier `t_critical(confidence, n-1)`. -/
def computeCI (values : List ℚ) (confidence : ℚ) : MetricWithCI :=
  if values = [] then { mean := 0, stdDevSq := 0, n := 0, stderrSq := 0, tCrit := 0 }
  else
    let n := values.length
    let mean := meanQ values
    let sdSq := if n = 1 then 0 else sampleVarQ values
    { mean := mean
      stdDevSq := sdSq
      n := n
      stderrSq := sdSq / n
      tCrit := tCritical confidence ((n : ℤ) - 1) }

/-- Square of the CI margin `t_crit · stderr`. -/
def marginSqCI (m : MetricWithCI) : ℚ := m.tCrit ^ 2 * m.stderrSq

/-- The specification's CI-overlap relation ("lower bound of one ≤ upper bound
of the other", both ways) stated through explicit rational square roots of
the two squared margins. -/
def ciOverlap (m₁ m₂ : MetricWithCI) : Prop :=
  ∃ g₁ g₂ : ℚ, 0 ≤ g₁ ∧ 0 ≤ g₂ ∧ g₁ ^ 2 = marginSqCI m₁ ∧ g₂ ^ 2 = marginSqCI m₂ ∧
    m₁.mean - g₁ ≤ m₂.mean + g₂ ∧ m₂.mean - g₂ ≤ m₁.mean + g₁

/-! ## `analyze_significance.py`: `generate_ranking_with_significance` -/

/-- The slice of a `PairedComparison` record read by the ranking function: it
matches only on the two model names and reads only `is_significant`
(`mean_diff`/`common_n` kept as representative payload; the `ci` and
`cohens_d` fields are square-root-valued and never read by the ranking). -/
structure PairedComparisonR where
  model_a : String
  model_b : String
  metric : String
  mean_diff : ℚ
  is_significant : Bool
  common_n : ℕ
  deriving Repr, DecidableEq

/-- The comparison scan of the ranking loop: find the first comparison between
the two named models; a tie is flagged iff one is found and it is not
significant.  (Both the `is_tie_with_next` and `is_tie_with_prev` loops of
the source are instances of this scan.) -/
def pairNotSig (comps : List PairedComparisonR) (a b : String) : Bool :=
  match comps.find? (fun c =>
      (c.model_a == a && c.model_b == b) || (c.model_a == b && c.model_b == a)) with
  | some c => !c.is_significant
  | none => false

/-- One entry of the rankings list built by
`generate_ranking_with_significance`. -/
structure RankEntry where
  rank : ℕ
  model_id : String
  score : MetricWithCI
  is_tie : Bool
  display_rank : String
  deriving Repr, DecidableEq

/-- `is_tie_with_next`: scan for the first comparison with the next model. -/
def nextTie (comps : List PairedComparisonR) (mid : String)
    (rest : List (String × MetricWithCI)) : Bool :=
  match rest with
  | [] => false
  | (nid, _) :: _ => pairNotSig comps mid nid

/-- `is_tie_with_prev`: scan for the first comparison with the previous
model. -/
def prevTie (comps : List PairedComparisonR) (mid : String)
    (prev : Option (String × ℕ)) : Bool :=
  match prev with
  | none => false
  | some (pid, _) => pairNotSig comps mid pid

/-- `rankings[-1]['rank']`: the previous entry's (possibly shared) rank. -/
def prevRank (prev : Option (String × ℕ)) (dflt : ℕ) : ℕ :=
  match prev with
  | none => dflt
  | some (_, pr) => pr

/-- The body of the `for i, (model_id, metrics) in enumerate(sorted_models)`
loop: `prev` carries the previous model and its (possibly shared) rank,
`i` the 0-based position. -/
def rankLoop (comps : List PairedComparisonR) :
    Option (String × ℕ) → ℕ → List (String × MetricWithCI) → List RankEntry
  | _, _, [] => []
  | prev, i, (mid, m) :: rest =>
    let tieNext := nextTie comps mid rest
    let tiePrev := prevTie comps mid prev
    let rank := if tiePrev then prevRank prev (i + 1) else i + 1
    { rank := rank
      model_id := mid
      score := m
      is_tie := tieNext || tiePrev
      display_rank := toString rank ++ (if tieNext then "=" else "") } ::
      rankLoop comps (some (mid, rank)) (i + 1) rest

/-- Lookup of a metric's `MetricWithCI` with the `compute_ci([])` default. -/
def getMetricCI (mm : List (String × MetricWithCI)) (metric : String) : MetricWithCI :=
  (lookupStr mm metric).getD (computeCI [] (95 / 100))

/-- `generate_ranking_with_significance(model_metrics, comparisons, metric)`:
sort the models by the chosen metric's mean (descending, stable), then walk
adjacent pairs flagging statistical ties from the precomputed comparisons
and sharing ranks. -/
def generateRankingWithSignificance
    (model_metrics : List (String × List (String × MetricWithCI)))
    (comps : List PairedComparisonR) (metric : String) : List RankEntry :=
  let sorted := sortByDescQ (fun p => (getMetricCI p.2 metric).mean) model_metrics
  rankLoop comps none 0 (sorted.map (fun p => (p.1, getMetricCI p.2 metric)))

/-! ## `run_benchmark.py`: judge-panel filter and corpus merge -/

/-- Line 287 of `run_benchmark.py`:
`judge_models_for_this = [j for j in judge_models if j != model_id]` -/
def judgeModelsForThis (judge_models : List String) (model_id : String) : List String :=
  judge_models.filter (fun j => j != model_id)

/-- A stored benchmark-result record as the merge step sees it: the three
identity-key fields read by the merge, with every other field of the record
abstracted into `rest`. -/
structure MergeRecord where
  model_id : List Char
  task : List Char
  test_case_id : List Char
  rest : ℕ
  deriving Repr, DecidableEq

/-- The merge key `f"{model_id}:{task}:{test_case_id}"`. -/
def mergeKey (r : MergeRecord) : List Char :=
  r.model_id ++ ':' :: r.task ++ ':' :: r.test_case_id

/-- The identity-key triple `(model_id, task, test_case_id)` of the
specification. -/
def tripleOf (r : MergeRecord) : List Char × List Char × List Char :=
  (r.model_id, r.task, r.test_case_id)

/-- Python-dict assignment on an association list: update the value in place
when the key exists (keeping its position), else append. -/
def dictUpsert {α : Type} (k : List Char) (v : α) :
    List (List Char × α) → List (List Char × α)
  | [] => [(k, v)]
  | (k', v') :: rest => if k' = k then (k', v) :: rest else (k', v') :: dictUpsert k v rest

/-- Folds a record list into a dict keyed by `mergeKey` (both the
`results_dict` comprehension over the existing corpus and the subsequent
update loop are this fold). -/
def recordsToDict (d : List (List Char × MergeRecord)) (rs : List MergeRecord) :
    List (List Char × MergeRecord) :=
  rs.foldl (fun d r => dictUpsert (mergeKey r) r d) d

/-- Lines 541–547 of `run_benchmark.py`: build the dict from the existing
corpus, overwrite/extend with the new results, and take the dict's values
(insertion order). -/
def mergeResults (existing new : List MergeRecord) : List MergeRecord :=
  (recordsToDict (recordsToDict [] existing) new).map (fun p => p.2)

/-! ## `format_checker.py`: text primitives

Python text is `List Char`.  `str.strip`, `str.lower`, `in`, `str.count` and
`str.split` are modelled below; `str.lower` is modelled on the ASCII range
(the source's forbidden phrases and all schema keywords are ASCII). -/

/-- Python whitespace (the characters stripped by `str.strip` and matched by
`\s`). -/
def pySpace (c : Char) : Bool :=
  c == ' ' || c == '\t' || c == '\n' || c == '\r' || c == '\x0b' || c == '\x0c'

/-- `not text or not text.strip()`: empty or whitespace-only. -/
def isBlank (t : List Char) : Bool := t.all pySpace

/-- `str.strip()`. -/
def stripPy (t : List Char) : List Char :=
  ((t.dropWhile pySpace).reverse.dropWhile pySpace).reverse

/-- Python's substring containment `needle in hay`. -/
def containsSub (needle hay : List Char) : Bool :=
  hay.tails.any (fun s => needle.isPrefixOf s)

/-- Python's `str.count(sub)`: non-overlapping occurrences, scanning left to
right (fuel-indexed; the fuel `hay.length + 1` never runs out because every
step consumes at least one character). -/
def countSubAux (needle : List Char) : ℕ → List Char → ℕ
  | 0, _ => 0
  | _ + 1, [] => 0
  | fuel + 1, c :: rest =>
    if needle ≠ [] ∧ needle.isPrefixOf (c :: rest) then
      1 + countSubAux needle fuel (rest.drop (needle.length - 1))
    else countSubAux needle fuel rest

/-- `str.count(sub)` for a non-empty pattern. -/
def countSub (needle hay : List Char) : ℕ := countSubAux needle (hay.length + 1) hay

/-- The `"```"` code-fence marker. -/
def fenceMarker : List Char := "```".toList

/-! ## `format_checker.py`: issues

The source reports issues as formatted strings; the embedding represents each
distinct issue message by a constructor carrying the formatted-in data, so
that "exactly this issue" claims are statable without reproducing Python's
string formatting. -/

/-- The issue messages produced by `format_checker.py`. -/
inductive Issue where
  /-- "Empty output text" -/
  | emptyOutput : Issue
  /-- "Does not start with H1 heading" -/
  | noH1 : Issue
  /-- "First heading is not properly formatted H1 (# Title)" -/
  | badH1 : Issue
  /-- "Contains frontmatter (---)" -/
  | frontmatter : Issue
  /-- "Contains forbidden phrase: {phrase}" -/
  | forbiddenPhrase (phrase : List Char) : Issue
  /-- "Unclosed code block" -/
  | unclosedCodeBlock : Issue
  /-- "Unclosed inline LaTeX: {n} instances" -/
  | unclosedInlineLatex (n : ℕ) : Issue
  /-- "Unpaired dollar signs (LaTeX delimiters)" -/
  | unpairedDollars : Issue
  /-- "Invalid display math block: {block[:20]}" -/
  | invalidDisplayMath (blockPrefix : List Char) : Issue
  /-- "JSON parse error: {e}" -/
  | jsonParseError (e : String) : Issue
  /-- "Top level is not an object" -/
  | topLevelNotObject : Issue
  /-- "Missing 'questions' key" -/
  | missingQuestionsKey : Issue
  /-- "'questions' is not an array" -/
  | questionsNotArray : Issue
  /-- "Question {i} is not an object" -/
  | questionNotObject (i : ℕ) : Issue
  /-- "Question {i} missing field: {field}" -/
  | questionMissingField (i : ℕ) (field : List Char) : Issue
  /-- "Question {i} options is not an array" -/
  | optionsNotArray (i : ℕ) : Issue
  /-- "Question {i} does not have exactly 4 options" -/
  | optionsNotFour (i : ℕ) : Issue
  /-- "Question {i} has invalid correctIndex: {idx}" -/
  | invalidCorrectIndex (i : ℕ) : Issue
  /-- "Missing 'flashcards' key" -/
  | missingFlashcardsKey : Issue
  /-- "'flashcards' is not an array" -/
  | flashcardsNotArray : Issue
  /-- "Flashcard {i} is not an object" -/
  | cardNotObject (i : ℕ) : Issue
  /-- "Flashcard {i} missing field: {field}" -/
  | cardMissingField (i : ℕ) (field : List Char) : Issue
  /-- "Flashcard {i} has invalid type: {type}" -/
  | invalidCardType (i : ℕ) : Issue
  /-- "LaTeX in JSON: {issue}" -/
  | latexInJson (inner : Issue) : Issue
  deriving Repr, DecidableEq

/-! ## `format_checker.py`: `check_latex_escaping` -/

/-- Number of matches of `re.findall(r'\$[^$]*$', text, re.MULTILINE)`.

Derivation: the pattern starts at a `$`, greedily consumes non-`$`
characters (which in a character class include newlines), and must end at a
`$`-anchor position (before a newline, or end of text).  A `$` therefore
starts a match exactly when no further `$` occurs before the next
newline/end — i.e. when it is the last `$` of its line — and the scan
resumes after the match without disturbing later lines.  The match count is
hence the number of newline-separated lines containing at least one `$`. -/
def unclosedInlineCount (t : List Char) : ℕ :=
  (t.splitOn '\n').countP (fun line => line.contains '$')

/-- The matches of `re.findall(r'\$\$[^$]+\$\$', text)`: a direct engine walk.
On a failed attempt the engine advances the start position by one
character; a successful match consumes through its closing `$$`
(fuel-indexed; every step consumes at least one character). -/
def displayScanAux : ℕ → List Char → List (List Char)
  | 0, _ => []
  | _ + 1, [] => []
  | fuel + 1, '$' :: '$' :: rest =>
    let run := rest.takeWhile (fun c => c != '$')
    let rem := rest.dropWhile (fun c => c != '$')
    if run.isEmpty then displayScanAux fuel ('$' :: rest)
    else
      match rem with
      | '$' :: '$' :: rest2 =>
        ('$' :: '$' :: (run ++ ['$', '$'])) :: displayScanAux fuel rest2
      | _ => displayScanAux fuel ('$' :: rest)
  | fuel + 1, _ :: rest => displayScanAux fuel rest

/-- `re.findall(r'\$\$[^$]+\$\$', text)`. -/
def displayBlocks (t : List Char) : List (List Char) := displayScanAux (t.length + 1) t

/-- `check_latex_escaping(text) -> (is_valid, issues)`.  Note every matched
display block has length ≥ 5 (`$$` + at least one character + `$$`), so the
`len(block) < 5` flag can never fire; it is nevertheless embedded as
written. -/
def checkLatexEscaping (t : List Char) : Bool × List Issue :=
  let unclosed := unclosedInlineCount t
  let issues1 := if 0 < unclosed then [Issue.unclosedInlineLatex unclosed] else []
  let dollarCount := t.count '$'
  let issues2 := if 0 < dollarCount ∧ dollarCount % 2 ≠ 0 then [Issue.unpairedDollars] else []
  let issues3 := (displayBlocks t).filterMap (fun b =>
    if b.length < 5 then some (Issue.invalidDisplayMath (b.take 20)) else none)
  let issues := issues1 ++ issues2 ++ issues3
  (issues.isEmpty, issues)

/-! ## `format_checker.py`: `check_markdown_structure` -/

/-- The fixed blocklist of forbidden meta/closing phrases. -/
def forbiddenPhrases : List (List Char) :=
  ["Damit kann man sich gut vorbereiten".toList,
   "Alles kommt aus den Vorlesungsfolien".toList,
   "Diese Zusammenfassung basiert auf".toList]

/-- ASCII lowering, modelling `str.lower` on the relevant inputs. -/
def lowerPy (t : List Char) : List Char := t.map Char.toLower

/-- `check_markdown_structure(text) -> (is_valid, issues)`. -/
def checkMarkdownStructure (t : List Char) : Bool × List Issue :=
  let stripped := stripPy t
  let issues1 :=
    if ¬ ("#".toList.isPrefixOf stripped) then [Issue.noH1]
    else if ¬ ("# ".toList.isPrefixOf stripped) then
      (let firstLine := (stripped.splitOn '\n').headD []
       if ¬ ("# ".toList.isPrefixOf firstLine) then [Issue.badH1] else [])
    else []
  let issues2 := if "---".toList.isPrefixOf stripped then [Issue.frontmatter] else []
  let issues3 := forbiddenPhrases.filterMap (fun p =>
    if containsSub (lowerPy p) (lowerPy t) then some (Issue.forbiddenPhrase p) else none)
  let issues4 := if countSub fenceMarker t % 2 ≠ 0 then [Issue.unclosedCodeBlock] else []
  let issues := issues1 ++ issues2 ++ issues3 ++ issues4
  (issues.isEmpty, issues)

/-! ## `format_checker.py`: JSON values, `check_json_structure`, `json.dumps` -/

/-- Parsed JSON values as `json.loads` yields them (`int` kept separate from
`float` because the `correctIndex` check uses `isinstance(idx, int)`). -/
inductive Json where
  | null : Json
  | bool (b : Bool) : Json
  | int (z : ℤ) : Json
  | float (q : ℚ) : Json
  | str (s : List Char) : Json
  | arr (xs : List Json) : Json
  | obj (fields : List (List Char × Json)) : Json
  deriving Repr

/-- Object-field lookup (`key in data` / `data[key]`). -/
def lookupJ (fields : List (List Char × Json)) (k : List Char) : Option Json :=
  (fields.find? (fun p => p.1 == k)).map (fun p => p.2)

/-- `isinstance(v, int)` — `True` also for Python booleans, which are a
subclass of `int`. -/
def jsonIsInt : Json → Bool
  | Json.int _ => true
  | Json.bool _ => true
  | _ => false

/-- The integer value used by the `correctIndex` range check
(`True`/`False` count as `1`/`0`). -/
def jsonIntVal : Json → ℤ
  | Json.int z => z
  | Json.bool b => if b then 1 else 0
  | _ => 0

/-- `isinstance(v, (int, float))` (again including booleans). -/
def jsonIsNumber : Json → Bool
  | Json.int _ => true
  | Json.float _ => true
  | Json.bool _ => true
  | _ => false

/-- Numeric value of an `(int, float)`-instance. -/
def jsonToQ : Json → ℚ
  | Json.int z => (z : ℚ)
  | Json.float q => q
  | Json.bool b => if b then 1 else 0
  | _ => 0

/-- The required fields of a quiz question. -/
def quizRequiredFields : List (List Char) :=
  ["sectionId".toList, "sectionTitle".toList, "question".toList,
   "options".toList, "correctIndex".toList, "sourceSnippet".toList]

/-- The required fields of a flashcard. -/
def cardRequiredFields : List (List Char) :=
  ["sectionId".toList, "sectionTitle".toList, "type".toList,
   "front".toList, "back".toList, "sourceSnippet".toList]

/-- The per-question body of the quiz schema loop. -/
def quizQuestionIssues (i : ℕ) (q : Json) : List Issue :=
  match q with
  | Json.obj qf =>
    let missing := quizRequiredFields.filterMap (fun f =>
      if (lookupJ qf f).isNone then some (Issue.questionMissingField i f) else none)
    let optIssues := match lookupJ qf "options".toList with
      | some (Json.arr os) => if os.length ≠ 4 then [Issue.optionsNotFour i] else []
      | some _ => [Issue.optionsNotArray i]
      | none => []
    let idxIssues := match lookupJ qf "correctIndex".toList with
      | some v =>
        if ¬ jsonIsInt v ∨ jsonIntVal v < 0 ∨ 3 < jsonIntVal v then
          [Issue.invalidCorrectIndex i] else []
      | none => []
    missing ++ optIssues ++ idxIssues
  | _ => [Issue.questionNotObject i]

/-- The per-card body of the flashcard schema loop. -/
def cardIssues (i : ℕ) (card : Json) : List Issue :=
  match card with
  | Json.obj cf =>
    let missing := cardRequiredFields.filterMap (fun f =>
      if (lookupJ cf f).isNone then some (Issue.cardMissingField i f) else none)
    let typeIssues := match lookupJ cf "type".toList with
      | some (Json.str s) =>
        if s ≠ "qa".toList ∧ s ≠ "cloze".toList then [Issue.invalidCardType i] else []
      | some _ => [Issue.invalidCardType i]
      | none => []
    missing ++ typeIssues
  | _ => [Issue.cardNotObject i]

/-- `check_json_structure(data, schema_type) -> (is_valid, issues)`. -/
def checkJsonStructure (data : Json) (schema : String) : Bool × List Issue :=
  match data with
  | Json.obj fields =>
    let issues :=
      if schema = "quiz" then
        match lookupJ fields "questions".toList with
        | none => [Issue.missingQuestionsKey]
        | some (Json.arr qs) => qs.enum.flatMap (fun p => quizQuestionIssues p.1 p.2)
        | some _ => [Issue.questionsNotArray]
      else if schema = "flashcards" then
        match lookupJ fields "flashcards".toList with
        | none => [Issue.missingFlashcardsKey]
        | some (Json.arr cs) => cs.enum.flatMap (fun p => cardIssues p.1 p.2)
        | some _ => [Issue.flashcardsNotArray]
      else []
    (issues.isEmpty, issues)
  | _ => (false, [Issue.topLevelNotObject])

/-- String-character escaping of `json.dumps` (the `\uXXXX` escapes of other
control and non-ASCII characters are elided; they contain no `$` or real
newline, the only characters the downstream LaTeX check reacts to). -/
def escapeChar (c : Char) : List Char :=
  if c = '"' then ['\\', '"']
  else if c = '\\' then ['\\', '\\']
  else if c = '\n' then ['\\', 'n']
  else if c = '\t' then ['\\', 't']
  else if c = '\r' then ['\\', 'r']
  else [c]

mutual

/-- `json.dumps` (default separators; numeric formatting immaterial to the
LaTeX check, which only reacts to `$` and newlines — digits contain
neither). -/
def dumpsJson : Json → List Char
  | Json.null => "null".toList
  | Json.bool true => "true".toList
  | Json.bool false => "false".toList
  | Json.int z => (toString z).toList
  | Json.float q => (toString q).toList
  | Json.str s => '"' :: (s.flatMap escapeChar ++ ['"'])
  | Json.arr xs => '[' :: (dumpsArr xs ++ [']'])
  | Json.obj fs => '\x7b' :: (dumpsObj fs ++ ['\x7d'])

/-- Array elements joined by `", "`. -/
def dumpsArr : List Json → List Char
  | [] => []
  | [x] => dumpsJson x
  | x :: xs => dumpsJson x ++ ',' :: ' ' :: dumpsArr xs

/-- Object entries `"key": value` joined by `", "`. -/
def dumpsObj : List (List Char × Json) → List Char
  | [] => []
  | (k, v) :: rest =>
    ('"' :: (k.flatMap escapeChar ++ ['"'])) ++ ':' :: ' ' :: dumpsJson v ++
      (if rest.isEmpty then [] else [',', ' ']) ++ dumpsObj rest

end

/-! ## `format_checker.py`: `evaluate_reliability` -/

/-- The `details` dict (absent keys as `none`). -/
structure RDetails where
  empty_output : Option Bool
  json_parseable : Option Bool
  parse_error : Option String
  markdown_valid : Option Bool
  latex_valid : Option Bool
  markdown_issues : Option (List Issue)
  latex_issues : Option (List Issue)
  json_valid : Option Bool
  json_issues : Option (List Issue)
  deriving Repr, DecidableEq

/-- The all-absent `details` dict. -/
def emptyDetails : RDetails :=
  { empty_output := none, json_parseable := none, parse_error := none,
    markdown_valid := none, latex_valid := none, markdown_issues := none,
    latex_issues := none, json_valid := none, json_issues := none }

/-- The result dict of `evaluate_reliability`. -/
structure ReliabilityResult where
  reliability_score : ℚ
  issues : List Issue
  details : RDetails
  deriving Repr, DecidableEq

/-- `evaluate_reliability(task_type, output_text, parsed_json)`.
`jsonLoads` is the external `json.loads` capability used for quiz/flashcard
outputs when no pre-parsed structure is supplied (`Except.error e` models
`json.JSONDecodeError` with message `e`). -/
def evaluateReliability (task_type : String) (output_text : List Char)
    (parsed_json : Option Json) (jsonLoads : List Char → Except String Json) :
    ReliabilityResult :=
  if isBlank output_text then
    { reliability_score := max 1 1
      issues := [Issue.emptyOutput]
      details :=
        { emptyDetails with
          empty_output := some true
          json_parseable :=
            if task_type = "quiz" ∨ task_type = "flashcards" then some false else none
          parse_error :=
            if task_type = "quiz" ∨ task_type = "flashcards" then
              some "Empty output text" else none } }
  else if task_type = "summary" then
    let md := checkMarkdownStructure output_text
    let latex := checkLatexEscaping output_text
    let score : ℚ := 100 - (if md.1 then 0 else (md.2.length : ℚ) * 5)
      - (if latex.1 then 0 else (latex.2.length : ℚ) * 3)
    { reliability_score := max 1 (min 100 score)
      issues := md.2 ++ latex.2
      details :=
        { emptyDetails with
          markdown_valid := some md.1, latex_valid := some latex.1,
          markdown_issues := some md.2, latex_issues := some latex.2 } }
  else if task_type = "quiz" ∨ task_type = "flashcards" then
    let parsed : Except String Json :=
      match parsed_json with
      | some j => Except.ok j
      | none => jsonLoads output_text
    match parsed with
    | Except.error e =>
      { reliability_score := max 1 1
        issues := [Issue.jsonParseError e]
        details := { emptyDetails with json_parseable := some false, parse_error := some e } }
    | Except.ok data =>
      let schema := if task_type = "quiz" then "quiz" else "flashcards"
      let js := checkJsonStructure data schema
      let latex := checkLatexEscaping (dumpsJson data)
      let score : ℚ := 100 - (if js.1 then 0 else (js.2.length : ℚ) * 10)
        - (if latex.2 = [] then 0 else (latex.2.length : ℚ) * 2)
      { reliability_score := max 1 (min 100 score)
        issues := js.2 ++ latex.2.map Issue.latexInJson
        details :=
          { emptyDetails with
            json_parseable := some true, json_valid := some js.1,
            json_issues := some js.2 } }
  else
    -- Unknown task type: no check runs; the initial score of 100 is clamped.
    { reliability_score := max 1 (min 100 100), issues := [], details := emptyDetails }

/-! ## `llm_judge.py`: single-judge evaluation and consensus aggregation

`client.generate` is an external capability; a judge call's outcome is a
`GenResult` (text, usage, cost, error — exactly the dict the client
returns, with `cost = 0.0` on its terminal error path).  `json.loads` is
again a capability parameter. -/

/-- The `usage` block of a generation result. -/
structure UsageInfo where
  prompt_tokens : ℕ
  completion_tokens : ℕ
  total_tokens : ℕ
  deriving Repr, DecidableEq

/-- The dict returned by `ModelClient.generate`. -/
structure GenResult where
  text : List Char
  usage : Option UsageInfo
  cost : ℚ
  error : Option String
  deriving Repr, DecidableEq

/-- The `pricing` block of a model config entry (missing price components
treated as zero). -/
structure PricingInfo where
  input_per_1m : Option ℚ
  output_per_1m : Option ℚ
  deriving Repr, DecidableEq

/-- `ModelClient._calculate_cost` (`None` pricing yields `0`). -/
def calculateCost (pricing : Option PricingInfo) (pt ct : ℕ) : ℚ :=
  match pricing with
  | none => 0
  | some p =>
    (pt : ℚ) / 1000000 * p.input_per_1m.getD 0 + (ct : ℚ) / 1000000 * p.output_per_1m.getD 0

/-- The cost of the judgment after the recomputation block of
`judge_with_model` (lines 227–235): replaced by `_calculate_cost` when a
model config and usage are present and there is no error, else the
client-reported cost. -/
def effectiveJudgeCost (g : GenResult) (cfg : Option PricingInfo) : ℚ :=
  match cfg, g.usage, g.error with
  | some p, some u, none => calculateCost (some p) u.prompt_tokens u.completion_tokens
  | _, _, _ => g.cost

/-- Python's `str.split(sub)`, fuel-indexed (every step consumes at least one
character, so fuel `s.length + 1` never runs out). -/
def splitOnSubAux (sep : List Char) : ℕ → List Char → List Char → List (List Char)
  | 0, cur, rem => [cur ++ rem]
  | fuel + 1, cur, rem =>
    if sep.isPrefixOf rem ∧ sep ≠ [] then
      cur :: splitOnSubAux sep fuel [] (rem.drop sep.length)
    else
      match rem with
      | [] => [cur]
      | c :: rest => splitOnSubAux sep fuel (cur ++ [c]) rest

/-- `str.split(sub)` for a non-empty separator. -/
def splitOnSub (sep s : List Char) : List (List Char) :=
  splitOnSubAux sep (s.length + 1) [] s

/-- The code-fence extraction of `judge_with_model`:
`text.split("```json")[1].split("```")[0].strip()` when a ```json fence is
present, the analogous plain-fence extraction otherwise, on the stripped
response text. -/
def extractJsonText (t : List Char) : List Char :=
  let t := stripPy t
  if containsSub "```json".toList t then
    stripPy ((splitOnSub fenceMarker ((splitOnSub "```json".toList t).getD 1 [])).getD 0 [])
  else if containsSub fenceMarker t then
    stripPy ((splitOnSub fenceMarker ((splitOnSub fenceMarker t).getD 1 [])).getD 0 [])
  else t

/-- The per-judge result dict built by `judge_with_model` (the `reasoning` and
`raw_response` convenience fields are not re-modelled). -/
structure Judgment where
  model_id : String
  error : Option String
  scores : List (List Char × Json)
  cost : ℚ
  deriving Repr

/-- The clamping loop over the parsed scores: every numeric entry other than
`reasoning` is clamped into `[1, 100]` (booleans count as numbers, as with
`isinstance`). -/
def clampScores (fields : List (List Char × Json)) : List (List Char × Json) :=
  fields.map (fun p =>
    if p.1 ≠ "reasoning".toList ∧ jsonIsNumber p.2 then
      (p.1, Json.float (max 1 (min 100 (jsonToQ p.2))))
    else p)

/-- `judge_with_model` as a function of the generation outcome and the
`json.loads` capability.  `none` models the one uncaught exception path: a
parse result that is not an object makes `scores.items()` raise, and the
exception propagates to `asyncio.gather(..., return_exceptions=True)`. -/
def judgeWithModel (model_id : String) (cfg : Option PricingInfo)
    (jsonLoads : List Char → Except String Json) (g : GenResult) : Option Judgment :=
  match g.error with
  | some e => some { model_id := model_id, error := some e, scores := [], cost := 0 }
  | none =>
    let judgeCost := effectiveJudgeCost g cfg
    if isBlank g.text then
      some { model_id := model_id, error := some "Empty response from judge model",
             scores := [], cost := judgeCost }
    else
      let text := extractJsonText g.text
      if text = [] then
        some { model_id := model_id, error := some "Empty JSON content after extraction",
               scores := [], cost := judgeCost }
      else
        match jsonLoads text with
        | Except.error e =>
          some { model_id := model_id, error := some ("Failed to parse JSON: " ++ e),
                 scores := [], cost := judgeCost }
        | Except.ok (Json.obj fields) =>
          some { model_id := model_id, error := none, scores := clampScores fields,
                 cost := judgeCost }
        | Except.ok _ => none

/-- The filtering loop of `_evaluate_consensus_internal` (lines 391–402):
exceptions (`none`) are skipped entirely; errored judgments are dropped
from the valid list. -/
def validJudgments (js : List (Option Judgment)) : List Judgment :=
  js.foldl (fun acc j =>
    match j with
    | none => acc
    | some j => if j.error.isSome then acc else acc ++ [j]) []

/-- The cost accumulation of the same loop: every non-exception judgment —
errored or not — contributes its cost. -/
def totalJudgeCostOf (js : List (Option Judgment)) : ℚ :=
  js.foldl (fun acc j =>
    match j with
    | none => acc
    | some j => acc + j.cost) 0

/-- Per-dimension aggregate of the consensus result: the inline `std_dev`
expression is a *population* standard deviation, stored squared. -/
structure AggScoreStats where
  mean : ℚ
  median : ℚ
  min : ℚ
  max : ℚ
  stdDevSq : ℚ
  count : ℕ
  deriving Repr, DecidableEq

/-- The consensus result dict (on the all-failed path the source returns
`scores`/`judgments` keys instead of `aggregated_scores`/
`individual_judgments`; both are empty there and are modelled by the same
empty fields). -/
structure ConsensusOutcome where
  error : Option String
  aggregated_scores : List (List Char × AggScoreStats)
  individual_judgments : List Judgment
  consensus_metrics : List (List Char × ℚ)
  judge_count : ℕ
  total_judge_cost : ℚ
  deriving Repr

/-- The numeric values reported for a dimension key across the valid
judgments (`score is not None and isinstance(score, (int, float))`). -/
def keyValues (valid : List Judgment) (k : List Char) : List ℚ :=
  valid.filterMap (fun j =>
    match lookupJ j.scores k with
    | some v => if jsonIsNumber v then some (jsonToQ v) else none
    | none => none)

/-- The union of score keys over the valid judgments.  Python iterates a
`set`, whose order is unspecified; the aggregation content is
order-independent and the embedding fixes first-appearance order. -/
def scoreKeys (valid : List Judgment) : List (List Char) :=
  (valid.flatMap (fun j => j.scores.map (fun p => p.1))).eraseDups

/-- The `for key in all_score_keys` aggregation loop: per-dimension
mean/median/min/max/std-dev/count over the valid judgments that reported
the key (the inline `median` is `sorted[len // 2]`, the inline `std_dev`
the population standard deviation, stored squared). -/
def aggregatedScoresOf (valid : List Judgment) : List (List Char × AggScoreStats) :=
  (scoreKeys valid).filterMap (fun k =>
    if k = "reasoning".toList then none
    else
      let values := keyValues valid k
      if values.isEmpty then none
      else some (k,
        { mean := meanQ values
          median := (sortQ values).getD (values.length / 2) 0
          min := minQ values
          max := maxQ values
          stdDevSq := if 1 < values.length then popVarQ values else 0
          count := values.length }))

/-- The consensus-metrics loop: per-dimension variance and
`agreement = 1/(1+variance)` when at least two values were reported. -/
def consensusMetricsOf (valid : List Judgment) : List (List Char × ℚ) :=
  if 1 < valid.length then
    (scoreKeys valid).flatMap (fun k =>
      if k = "reasoning".toList then []
      else
        let values := keyValues valid k
        if 1 < values.length then
          let variance := popVarQ values
          [(k ++ "_variance".toList, variance),
           (k ++ "_agreement".toList, 1 / (1 + variance))]
        else [])
  else []

/-- Lines 391–468 of `llm_judge.py`: cost/validity fold, the
all-judges-failed short-circuit, per-dimension aggregation and the
consensus (variance/agreement) metrics. -/
def consensusAggregate (js : List (Option Judgment)) : ConsensusOutcome :=
  let valid := validJudgments js
  let total := totalJudgeCostOf js
  if valid.isEmpty then
    { error := some "All judge models failed", aggregated_scores := [],
      individual_judgments := [], consensus_metrics := [], judge_count := 0,
      total_judge_cost := total }
  else
    { error := none, aggregated_scores := aggregatedScoresOf valid,
      individual_judgments := valid, consensus_metrics := consensusMetricsOf valid,
      judge_count := valid.length, total_judge_cost := total }

/-! ## Helper lemmas -/

theorem le_foldl_max (a : ℚ) (l : List ℚ) :
    a ≤ l.foldl max a ∧ ∀ x ∈ l, x ≤ l.foldl max a := by
  induction l generalizing a with
  | nil => simp
  | cons y ys ih =>
    refine ⟨le_trans (le_max_left a y) (ih (max a y)).1, ?_⟩
    intro x hx
    rcases List.mem_cons.mp hx with rfl | hx
    · exact le_trans (le_max_right a x) (ih (max a x)).1
    · exact (ih (max a y)).2 x hx

theorem foldl_max_mem (a : ℚ) (l : List ℚ) : l.foldl max a = a ∨ l.foldl max a ∈ l := by
  induction l generalizing a with
  | nil => left; rfl
  | cons y ys ih =>
    rcases ih (max a y) with h | h
    · rcases max_choice a y with h' | h' <;> rw [List.foldl_cons, h, h']
      · left; rfl
      · right; exact List.mem_cons_self _ _
    · right; exact List.mem_cons_of_mem _ h

theorem le_maxQ {l : List ℚ} {x : ℚ} (hx : x ∈ l) : x ≤ maxQ l := by
  match l, hx with
  | y :: ys, hx =>
    rcases List.mem_cons.mp hx with rfl | hx
    · exact (le_foldl_max x ys).1
    · exact (le_foldl_max y ys).2 x hx

theorem maxQ_mem {l : List ℚ} (h : l ≠ []) : maxQ l ∈ l := by
  match l with
  | y :: ys =>
    have hm : maxQ (y :: ys) = ys.foldl max y := rfl
    rcases foldl_max_mem y ys with h' | h'
    · rw [hm, h']; exact List.mem_cons_self _ _
    · rw [hm]; exact List.mem_cons_of_mem _ h'

theorem foldl_min_mem (a : ℚ) (l : List ℚ) : l.foldl min a = a ∨ l.foldl min a ∈ l := by
  induction l generalizing a with
  | nil => left; rfl
  | cons y ys ih =>
    rcases ih (min a y) with h | h
    · rcases min_choice a y with h' | h' <;> rw [List.foldl_cons, h, h']
      · left; rfl
      · right; exact List.mem_cons_self _ _
    · right; exact List.mem_cons_of_mem _ h

theorem minQ_mem {l : List ℚ} (h : l ≠ []) : minQ l ∈ l := by
  match l with
  | y :: ys =>
    have hm : minQ (y :: ys) = ys.foldl min y := rfl
    rcases foldl_min_mem y ys with h' | h'
    · rw [hm, h']; exact List.mem_cons_self _ _
    · rw [hm]; exact List.mem_cons_of_mem _ h'

theorem clampBoundsQ (x : ℚ) : 1 ≤ max 1 (min 100 x) ∧ max 1 (min 100 x) ≤ 100 :=
  ⟨le_max_left 1 _, max_le (by norm_num) (le_trans (min_le_left 100 x) le_rfl)⟩

/-! ## Claim C10 — the judge panel excludes the evaluated model -/

/-- C10: for every configured judge list and evaluated model, the judge panel
passed to the consensus evaluator (`judge_models_for_this`,
`run_benchmark.py` line 287) contains exactly the configured judges other
than the evaluated model; in particular a model never judges its own
output. -/
theorem C10_judge_panel_excludes_self :
    ∀ (judge_models : List String) (model_id j : String),
      j ∈ judgeModelsForThis judge_models model_id ↔ j ∈ judge_models ∧ j ≠ model_id := by
  intro js m j
  simp [judgeModelsForThis, List.mem_filter, bne_iff_ne]

/-- Witness for C10 at a concrete configuration in which the evaluated model
is itself a configured judge. -/
theorem C10_judge_panel_excludes_self_witness :
    "b" ∈ judgeModelsForThis ["a", "b"] "a" ∧ "a" ∉ judgeModelsForThis ["a", "b"] "a" :=
  ⟨(C10_judge_panel_excludes_self ["a", "b"] "a" "b").mpr (by decide),
   fun h => ((C10_judge_panel_excludes_self ["a", "b"] "a" "a").mp h).2 rfl⟩

/-! ## Claim C6 — the legacy-scale trigger condition -/

/-- If the list has a positive member, `min_pos` is positive. -/
theorem minPosOf_pos {vals : List ℚ} {v : ℚ} (hv : v ∈ vals) (hvpos : 0 < v) :
    0 < minPosOf vals := by
  have hany : vals.any (fun v => decide (0 < v)) = true := by
    simp only [List.any_eq_true, decide_eq_true_eq]
    exact ⟨v, hv, hvpos⟩
  have hfilter : v ∈ vals.filter (fun v => decide (0 < v)) :=
    List.mem_filter.mpr ⟨hv, by simpa using hvpos⟩
  have hminmem := minQ_mem (List.ne_nil_of_mem hfilter)
  have := List.mem_filter.mp hminmem
  unfold minPosOf
  rw [if_pos hany]
  simpa using this.2

/-- The ×10 legacy-scale correction of `aggregate_model_metrics` fires
exactly when the collected corpus has at least one positive value and every
positive value lies in `(0, 10]`; in particular it never fires when any
collected value exceeds 10. -/
theorem scaleFires_spec :
    ∀ rs : List ResultRecord,
      (scaleFires rs = true ↔
        (∃ v ∈ allScoreValues rs, 0 < v) ∧ ∀ v ∈ allScoreValues rs, 0 < v → v ≤ 10) ∧
      ((∃ v ∈ allScoreValues rs, 10 < v) → scaleFires rs = false) := by
  intro rs
  have main : scaleFires rs = true ↔
      (∃ v ∈ allScoreValues rs, 0 < v) ∧ ∀ v ∈ allScoreValues rs, 0 < v → v ≤ 10 := by
    by_cases hnil : allScoreValues rs = []
    · have h0 : scaleFires rs = false := by simp [scaleFires, hnil]
      rw [h0]
      simp [hnil]
    · have hexp : scaleFires rs = true ↔
          0 < maxQ (allScoreValues rs) ∧ maxQ (allScoreValues rs) ≤ 10 ∧
            0 < minPosOf (allScoreValues rs) := by
        simp [scaleFires, hnil, and_assoc]
      rw [hexp]
      constructor
      · rintro ⟨hmaxpos, hmax10, -⟩
        refine ⟨⟨maxQ (allScoreValues rs), maxQ_mem hnil, hmaxpos⟩, ?_⟩
        intro v hv _
        exact le_trans (le_maxQ hv) hmax10
      · rintro ⟨⟨v, hv, hvpos⟩, hall⟩
        have hmaxpos : 0 < maxQ (allScoreValues rs) := lt_of_lt_of_le hvpos (le_maxQ hv)
        exact ⟨hmaxpos, hall _ (maxQ_mem hnil) hmaxpos, minPosOf_pos hv hvpos⟩
  refine ⟨main, ?_⟩
  rintro ⟨v, hv, hv10⟩
  by_contra hfire
  have hfire' : scaleFires rs = true := by
    cases h : scaleFires rs
    · exact absurd h hfire
    · rfl
  have := (main.mp hfire').2 v hv (lt_trans (by norm_num) hv10)
  linarith

/-- C6: the legacy-scale correction fires exactly when some collected value
is positive and every positive collected value is at most 10; it never
fires when any collected value exceeds 10. -/
theorem C6_scale_trigger :
    ∀ rs : List ResultRecord,
      (scaleFires rs = true ↔
        (∃ v ∈ allScoreValues rs, 0 < v) ∧ ∀ v ∈ allScoreValues rs, 0 < v → v ≤ 10) ∧
      ((∃ v ∈ allScoreValues rs, 10 < v) → scaleFires rs = false) :=
  scaleFires_spec

/-- A two-record legacy-scale corpus (all collected values in `(0, 10]`). -/
def scaleExFire : ResultRecord :=
  { reliability_score := some 8, cost := none, latency_ms := none,
    aggregated_scores := [("quality", ⟨7⟩)] }

/-- A record already on the 1–100 scale. -/
def scaleExNoFire : ResultRecord :=
  { reliability_score := some 80, cost := none, latency_ms := none, aggregated_scores := [] }

/-- Witness for C6: the `(0,10]` corpus fires the correction, a corpus
containing `80` does not. -/
theorem C6_scale_trigger_witness :
    scaleFires [scaleExFire] = true ∧ scaleFires [scaleExNoFire] = false := by
  constructor
  · exact (C6_scale_trigger [scaleExFire]).1.mpr (by decide)
  · exact (C6_scale_trigger [scaleExNoFire]).2 ⟨80, by decide, by norm_num⟩

/-! ## Claim C7 — reliability score bounds and empty-output short-circuit -/

/-- C7: for every supported task type and output text (and any pre-parsed
structure / `json.loads` behaviour), `evaluate_reliability` returns a score
in `[1, 100]`, and an empty or whitespace-only output yields exactly the
score `1` with the single issue "Empty output text" (no further checks
run). -/
theorem C7_reliability_bounds :
    ∀ (task_type : String) (output_text : List Char) (parsed_json : Option Json)
      (jsonLoads : List Char → Except String Json),
      task_type = "summary" ∨ task_type = "quiz" ∨ task_type = "flashcards" →
      (1 ≤ (evaluateReliability task_type output_text parsed_json jsonLoads).reliability_score ∧
        (evaluateReliability task_type output_text parsed_json jsonLoads).reliability_score ≤ 100) ∧
      (isBlank output_text = true →
        (evaluateReliability task_type output_text parsed_json jsonLoads).reliability_score = 1 ∧
        (evaluateReliability task_type output_text parsed_json jsonLoads).issues =
          [Issue.emptyOutput]) := by
  intro t txt pj loads _ht
  unfold evaluateReliability
  by_cases hb : isBlank txt = true
  · rw [if_pos hb]
    refine ⟨by norm_num, fun _ => ⟨by norm_num, rfl⟩⟩
  · rw [if_neg hb]
    refine ⟨?_, fun h => absurd h hb⟩
    by_cases h1 : t = "summary"
    · rw [if_pos h1]
      exact clampBoundsQ _
    · rw [if_neg h1]
      by_cases h2 : t = "quiz" ∨ t = "flashcards"
      · rw [if_pos h2]
        cases hp : (match pj with
          | some j => Except.ok j
          | none => loads txt : Except String Json) with
        | error e => simp only []; norm_num
        | ok d => exact clampBoundsQ _
      · rw [if_neg h2]
        norm_num

/-- Witness for C7: the whitespace-only summary output scores exactly 1 with
the single "Empty output text" issue. -/
theorem C7_reliability_bounds_witness :
    (evaluateReliability "summary" [' ', ' '] none
        (fun _ => Except.error "unused")).reliability_score = 1 ∧
      (evaluateReliability "summary" [' ', ' '] none
        (fun _ => Except.error "unused")).issues = [Issue.emptyOutput] :=
  (C7_reliability_bounds "summary" [' ', ' '] none (fun _ => Except.error "unused")
    (Or.inl rfl)).2 (by rfl)

/-! ## Claim C1 — partial-coverage exclusion from the overall rankings (code bug)

`test_metrics.py` (`test_comparative_excludes_partial_models_from_overall_rankings`)
asserts that `calculate_comparative_metrics`, given per-task sample counts,
drops a model with incomplete task coverage from `by_overall_score`
(`assert comparative["rankings"]["by_overall_score"] == ["model_full"]`).
The implemented function accepts no coverage information at all (the test's
`model_metrics_comprehensive=` keyword argument is not a parameter of the
function) and ranks every model of its input dict.  The theorem evaluates
the embedded function at the test's metrics fixture: the partial model is
not only included but ranked first. -/

/-- The test's `model_full` metrics fixture (CI keys, which the function never
reads, elided). -/
def cmFull : CMetrics :=
  { reliability_mean := some 90, content_quality_mean := some 88,
    combined_score := some (886 / 10), overall_score := some 89,
    universal_weighted_score := none, cost_per_quality_point := some (2 / 1000),
    cost_per_reliability_point := none, cost_total := none }

/-- The test's `model_partial` metrics fixture: higher scores, but (per the
test's comprehensive fixture) zero quiz and flashcard samples. -/
def cmPartial : CMetrics :=
  { reliability_mean := some 99, content_quality_mean := some 99,
    combined_score := some 99, overall_score := some 99,
    universal_weighted_score := none, cost_per_quality_point := some (1 / 1000),
    cost_per_reliability_point := none, cost_total := none }

/-- C1 (code bug): at the test fixture, the partial-coverage model appears in
the `by_overall_score` ranking — in first place — instead of being
excluded. -/
theorem C1_partial_model_not_excluded :
    (calculateComparativeMetrics [("model_full", cmFull), ("model_partial", cmPartial)]).map
        (fun c => c.by_overall_score) = some ["model_partial", "model_full"] := by
  have hproj : (calculateComparativeMetrics
        [("model_full", cmFull), ("model_partial", cmPartial)]).map
        (fun c => c.by_overall_score) =
      some (sortByDescQ
        (fun m => ((lookupStr [("model_full", cmFull), ("model_partial", cmPartial)] m).bind
          (fun c => c.overall_score)).getD 0) ["model_full", "model_partial"]) := rfl
  rw [hproj]
  simp [sortByDescQ, List.insertionSort, List.orderedInsert, lookupStr,
    List.find?_cons, cmFull, cmPartial]
  all_goals norm_num

/-! ## Claim C2 — counterexample: CI overlap alone does not mark a tie -/

/-- A sample whose CI margin is rational: `[0,0,0,4]` has mean 1, sample
variance 4, `stderr = 1` and `t_crit = 2.3`, so the 95% CI is
`[-1.3, 3.3]`. -/
def tieSample : List ℚ := [0, 0, 0, 4]

/-- Metrics dict entry used for both models of the counterexample. -/
def mmTie : List (String × MetricWithCI) := [("content_quality", computeCI tieSample (95 / 100))]

/-- C2 counterexample: two adjacent models with identical (hence overlapping)
95% confidence intervals and no pairwise comparison between them are *not*
marked as a statistical tie and do not share a rank — refuting the claim
that overlapping CIs alone produce a tie. -/
theorem C2_ci_overlap_no_tie_counterexample :
    ciOverlap (getMetricCI mmTie "content_quality") (getMetricCI mmTie "content_quality") ∧
      (generateRankingWithSignificance [("model_a", mmTie), ("model_b", mmTie)] []
          "content_quality").map (fun e => (e.rank, e.is_tie)) = [(1, false), (2, false)] := by
  have hev : computeCI tieSample (95 / 100) =
      { mean := 1, stdDevSq := 4, n := 4, stderrSq := 1, tCrit := 23 / 10 } := by
    unfold computeCI
    rw [if_neg (by exact List.cons_ne_nil _ _)]
    norm_num [sampleVarQ, sumSqDev, meanQ, tCritical, tieSample]
  have hci : getMetricCI mmTie "content_quality" =
      { mean := 1, stdDevSq := 4, n := 4, stderrSq := 1, tCrit := 23 / 10 } := by
    rw [← hev]
    norm_num [getMetricCI, mmTie, lookupStr, List.find?_cons]
  constructor
  · rw [hci]
    refine ⟨23 / 10, 23 / 10, by norm_num, by norm_num, by norm_num [marginSqCI],
      by norm_num [marginSqCI], by norm_num, by norm_num⟩
  · norm_num [generateRankingWithSignificance, rankLoop, pairNotSig, sortByDescQ,
      nextTie, prevTie, prevRank, List.insertionSort, List.orderedInsert, List.find?_nil, hci]

/-! ## Claim C3 — counterexample: std_dev is the sample, not population,
standard deviation -/

/-- A result record with reliability 80 and no judge scores. -/
def rr80 : ResultRecord :=
  { reliability_score := some 80, cost := none, latency_ms := none, aggregated_scores := [] }

/-- A result record with reliability 90 and no judge scores. -/
def rr90 : ResultRecord :=
  { reliability_score := some 90, cost := none, latency_ms := none, aggregated_scores := [] }

/-- C3 counterexample: for the reliability series `[80, 90]` the aggregator's
`std_dev²` is `50` (sample variance, denominator `n-1`), while the
population variance is `25`.  Since `√` is injective on nonnegative
rationals, the reported `std_dev = √50 ≈ 7.07` is not the population
standard deviation `5`. -/
theorem C3_population_std_counterexample :
    sReliability [rr80, rr90] = [80, 90] ∧
      (aggregateCore [rr80, rr90] none).reliability.stdDevSq = 50 ∧
      popVarQ [80, 90] = 25 ∧ (50 : ℚ) ≠ 25 := by
  have hfire : scaleFires [rr80, rr90] = false := by
    refine (scaleFires_spec [rr80, rr90]).2 ⟨80, by decide, by norm_num⟩
  have hsr : sReliability [rr80, rr90] = [80, 90] := by
    rw [sReliability, hfire]
    decide
  have hproj : (aggregateCore [rr80, rr90] none).reliability.stdDevSq =
      (seriesStats (sReliability [rr80, rr90])).stdDevSq := rfl
  refine ⟨hsr, ?_, ?_, by norm_num⟩
  · rw [hproj, hsr]
    norm_num [seriesStats, sampleVarQ, sumSqDev, meanQ]
  · norm_num [popVarQ, sumSqDev, meanQ]

/-! ## Claim C4 — counterexample: a dimension with no samples contributes 0,
not the neutral midpoint 50 -/

/-- The claim's reading of `universal_weighted_score`, modelled from the spec
wording: "each missing dimension defaults to the neutral midpoint 50
rather than 0".  A dimension with no collected samples enters the blend
at 50. -/
def specUniversalClaim (rs : List ResultRecord) : ℚ :=
  let d := fun dim => if sDim rs dim = [] then (50 : ℚ) else meanQ (sDim rs dim)
  max 1 (min 100
    (d "factual_accuracy" * (30 / 100) + d "completeness" * (25 / 100) +
      d "clarity_structure" * (20 / 100) + d "language_quality" * (15 / 100) +
      d "usability" * (10 / 100)))

/-- C4 counterexample: for a corpus with no judge dimensions at all,
`aggregate_model_metrics` reports `universal_weighted_score = 1` (every
dimension enters at its always-present mean of `0`, the blend is `0`,
clamped up to `1`), while the claimed 50-default blend would be `50`. -/
theorem C4_missing_dimension_counterexample :
    (aggregateCore [rr80] none).universal_weighted_score = 1 ∧
      specUniversalClaim [rr80] = 50 ∧ (1 : ℚ) ≠ 50 := by
  have hproj : (aggregateCore [rr80] none).universal_weighted_score =
      calculateUniversalWeightedScore
        ((EVALUATION_DIMENSIONS.map (fun d => (d, seriesStats (sDim [rr80] d)))).map
          (fun p => (p.1, ⟨some p.2.mean⟩))) := rfl
  have hdim : ∀ d, sDim [rr80] d = [] := by
    intro d
    simp [sDim, dimScores, applyScale, rr80, lookupStr]
  refine ⟨?_, ?_, by norm_num⟩
  · rw [hproj]
    simp [calculateUniversalWeightedScore, getScoreU, EVALUATION_DIMENSIONS, hdim,
      seriesStats, lookupStr, List.find?_cons, calculatePercentiles]
    all_goals norm_num [max_def, min_def]
  · simp [specUniversalClaim, hdim]
    all_goals norm_num [max_def, min_def]

/-! ## Claim C5 — counterexample: the 1.96 multiplier needs n > 31, not n > 30 -/

/-- The claim's critical-multiplier table, modelled from the spec wording:
"1.96 whenever n > 30, ≈2.3 when n ≤ 11, ≈2.1 when n ≤ 21, 2.0
otherwise". -/
def specTClaim (n : ℕ) : ℚ :=
  if 30 < n then 196 / 100
  else if n ≤ 11 then 23 / 10
  else if n ≤ 21 then 21 / 10
  else 2

/-- A 31-value sample with rational standard error: thirty `0`s and one `31`
(mean 1, sample variance 31, `stderr = 1`). -/
def vals31 : List ℚ := List.replicate 30 0 ++ [31]

/-- C5 counterexample: at `n = 31` the code computes
`t_critical(0.95, df = 30) = 2.0` (the `df > 30` branch needs `n > 31`),
while the claim's table demands `1.96`; with `stderr = 1` the produced CI
margin is `2.0`, not `1.96`. -/
theorem C5_tcrit_boundary_counterexample :
    vals31.length = 31 ∧
      (computeCI vals31 (95 / 100)).tCrit = 2 ∧
      (computeCI vals31 (95 / 100)).stderrSq = 1 ∧
      specTClaim 31 = 196 / 100 ∧ (2 : ℚ) ≠ 196 / 100 := by
  have hlen : vals31.length = 31 := by decide
  have hne : vals31 ≠ [] := by decide
  have hmean : meanQ vals31 = 1 := by
    norm_num [meanQ, vals31, List.sum_append, List.sum_replicate, hlen]
  have hvar : sampleVarQ vals31 = 31 := by
    unfold sampleVarQ sumSqDev
    simp only [hmean, hlen]
    norm_num [vals31, List.map_append, List.map_replicate, List.sum_append,
      List.sum_replicate, nsmul_eq_mul]
  refine ⟨hlen, ?_, ?_, ?_, by norm_num⟩
  · unfold computeCI
    rw [if_neg hne]
    norm_num [tCritical, hlen]
  · unfold computeCI
    rw [if_neg hne]
    norm_num [hlen, hvar]
  · norm_num [specTClaim]

/-! ## Claim C8 — counterexample: colon-joined keys conflate distinct
identity triples -/

/-- An existing corpus record with identity key `("a", "b:c", "d")`. -/
def mrExist : MergeRecord :=
  { model_id := "a".toList, task := "b:c".toList, test_case_id := "d".toList, rest := 1 }

/-- A new record with the different identity key `("a:b", "c", "d")` but the
same joined string key `"a:b:c:d"`. -/
def mrNew : MergeRecord :=
  { model_id := "a:b".toList, task := "c".toList, test_case_id := "d".toList, rest := 2 }

/-- C8 counterexample: the new record, whose identity triple differs from the
existing one's, nevertheless replaces it (both share the joined string key
`"a:b:c:d"`), so the merged corpus no longer contains any record for the
existing identity key — refuting last-write-wins-per-triple and
one-record-per-identity-key as stated. -/
theorem C8_key_collision_counterexample :
    mergeResults [mrExist] [mrNew] = [mrNew] ∧ tripleOf mrExist ≠ tripleOf mrNew := by
  refine ⟨by decide, by decide⟩

/-! ## Claim C5 (amended) — the critical-multiplier table with the correct
boundary `n > 31` -/

/-- C5 amended: for every non-empty sample, `compute_ci` at 95% confidence
returns the sample mean, the sample standard deviation (`0` when `n = 1`),
`stderr = std_dev/√n` (squared encoding), and the critical multiplier
`1.96` when `n > 31` (i.e. `df = n-1 > 30`), `≈2.3` when `n ≤ 11`, `≈2.1`
when `n ≤ 21`, and `2.0` otherwise. -/
theorem C5_tcrit_table :
    ∀ (v : ℚ) (vs : List ℚ),
      (computeCI (v :: vs) (95 / 100)).mean = meanQ (v :: vs) ∧
      (computeCI (v :: vs) (95 / 100)).stdDevSq =
        (if (v :: vs).length = 1 then 0 else sampleVarQ (v :: vs)) ∧
      (computeCI (v :: vs) (95 / 100)).stderrSq =
        (computeCI (v :: vs) (95 / 100)).stdDevSq / (v :: vs).length ∧
      (computeCI (v :: vs) (95 / 100)).tCrit =
        (if 31 < (v :: vs).length then 196 / 100
         else if (v :: vs).length ≤ 11 then 23 / 10
         else if (v :: vs).length ≤ 21 then 21 / 10 else 2) := by
  intro v vs
  have hne : (v :: vs) ≠ [] := List.cons_ne_nil _ _
  unfold computeCI
  rw [if_neg hne]
  refine ⟨rfl, rfl, rfl, ?_⟩
  unfold tCritical
  have h1 : ((30 : ℤ) < (((v :: vs).length : ℤ) - 1)) ↔ 31 < (v :: vs).length := by omega
  have h2 : ((((v :: vs).length : ℤ) - 1) ≤ 10) ↔ (v :: vs).length ≤ 11 := by omega
  have h3 : ((((v :: vs).length : ℤ) - 1) ≤ 20) ↔ (v :: vs).length ≤ 21 := by omega
  simp only [h1, h2, h3]
  simp

/-- Witness for the amended C5 at the singleton sample. -/
theorem C5_tcrit_table_witness : (computeCI [5] (95 / 100)).tCrit = 23 / 10 := by
  have h := (C5_tcrit_table 5 []).2.2.2
  simpa using h

/-! ## Claim C3 (amended) — std_dev is the sample standard deviation -/

/-- The sample-standard-deviation relation (squared encoding): zero for
series of at most one element, and the `n/(n-1)` multiple of the
*population* variance for `n ≥ 2` — i.e. the Bessel-corrected sample
variance, not the population variance the original claim names. -/
def SampleStdSq (σsq : ℚ) (s : List ℚ) : Prop :=
  (s.length ≤ 1 → σsq = 0) ∧
  (2 ≤ s.length → σsq = (s.length : ℚ) / ((s.length : ℚ) - 1) * popVarQ s)

theorem seriesStats_sampleStdSq (l : List ℚ) : SampleStdSq (seriesStats l).stdDevSq l := by
  constructor
  · intro h
    have h' : ¬ 1 < l.length := by omega
    simp [seriesStats, h']
  · intro h
    have h1 : 1 < l.length := by omega
    have hn : (l.length : ℚ) ≠ 0 := Nat.cast_ne_zero.mpr (by omega)
    have hn1 : (l.length : ℚ) - 1 ≠ 0 := by
      have h2 : (2 : ℚ) ≤ (l.length : ℚ) := by exact_mod_cast h
      linarith
    simp only [seriesStats, if_pos h1, sampleVarQ, popVarQ]
    field_simp
    ring

theorem seriesStatsNR_sampleStdSq (l : List ℚ) : SampleStdSq (seriesStatsNR l).stdDevSq l := by
  have h := seriesStats_sampleStdSq l
  exact h

/-- C3 amended: for every non-empty input, each score series' reported
`std_dev` is the *sample* standard deviation (denominator `n - 1`) of the
(scale-corrected) series — `√(n/(n-1) · population-variance)` for `n ≥ 2` —
and `0` when the series has at most one element. -/
theorem C3_sample_std_all_series :
    ∀ (r : ResultRecord) (rs : List ResultRecord) (cfg : Option AggConfig),
      aggregateModelMetrics (r :: rs) cfg = some (aggregateCore (r :: rs) cfg) ∧
      SampleStdSq (aggregateCore (r :: rs) cfg).reliability.stdDevSq (sReliability (r :: rs)) ∧
      SampleStdSq (aggregateCore (r :: rs) cfg).content_quality.stdDevSq (sQuality (r :: rs)) ∧
      SampleStdSq (aggregateCore (r :: rs) cfg).factual_accuracy.stdDevSq
        (sDim (r :: rs) "factual_accuracy") ∧
      SampleStdSq (aggregateCore (r :: rs) cfg).completeness.stdDevSq
        (sDim (r :: rs) "completeness") ∧
      ∀ p ∈ (aggregateCore (r :: rs) cfg).evaluation,
        SampleStdSq p.2.stdDevSq (sDim (r :: rs) p.1) := by
  intro r rs cfg
  refine ⟨by simp [aggregateModelMetrics], seriesStats_sampleStdSq _,
    seriesStats_sampleStdSq _, seriesStatsNR_sampleStdSq _, seriesStatsNR_sampleStdSq _, ?_⟩
  intro p hp
  rcases List.mem_map.mp hp with ⟨d, _, rfl⟩
  exact seriesStats_sampleStdSq _

/-- Witness for the amended C3 at the `[80, 90]` reliability corpus. -/
theorem C3_sample_std_all_series_witness :
    (aggregateCore [rr80, rr90] none).reliability.stdDevSq =
      ((sReliability [rr80, rr90]).length : ℚ) /
        (((sReliability [rr80, rr90]).length : ℚ) - 1) * popVarQ (sReliability [rr80, rr90]) :=
  ((C3_sample_std_all_series rr80 [rr90] none).2.1).2 (by decide)

/-! ## Claim C4 (amended) — an uncollected dimension contributes 0, not 50 -/

/-- The mean a dimension actually contributes to the universal blend inside
`aggregate_model_metrics`: the (scale-corrected) collected mean, and `0` —
not 50 — when no samples were collected. -/
def dimMeanOrZero (rs : List ResultRecord) (dim : String) : ℚ :=
  if sDim rs dim = [] then 0 else meanQ (sDim rs dim)

/-- C4 amended: `universal_weighted_score` is the clamped fixed-weight blend
0.30/0.25/0.20/0.15/0.10 over factual_accuracy/completeness/
clarity_structure/language_quality/usability (technical_correctness
collected but unweighted), in which a dimension with no collected samples
enters at its always-present mean of `0`; the 50-default of
`calculate_universal_weighted_score` never fires on aggregator-built
input. -/
theorem C4_universal_blend_zero_default :
    ∀ (r : ResultRecord) (rs : List ResultRecord) (cfg : Option AggConfig),
      (aggregateCore (r :: rs) cfg).universal_weighted_score =
        max 1 (min 100
          (dimMeanOrZero (r :: rs) "factual_accuracy" * (30 / 100) +
            dimMeanOrZero (r :: rs) "completeness" * (25 / 100) +
            dimMeanOrZero (r :: rs) "clarity_structure" * (20 / 100) +
            dimMeanOrZero (r :: rs) "language_quality" * (15 / 100) +
            dimMeanOrZero (r :: rs) "usability" * (10 / 100))) := by
  intro r rs cfg
  have hproj : (aggregateCore (r :: rs) cfg).universal_weighted_score =
      calculateUniversalWeightedScore
        ((EVALUATION_DIMENSIONS.map (fun d => (d, seriesStats (sDim (r :: rs) d)))).map
          (fun p => (p.1, ⟨some p.2.mean⟩))) := rfl
  rw [hproj]
  simp [calculateUniversalWeightedScore, getScoreU, EVALUATION_DIMENSIONS, lookupStr,
    List.find?_cons, seriesStats, dimMeanOrZero]

/-- Witness for the amended C4 at a single-record corpus with no judge
dimensions. -/
theorem C4_universal_blend_zero_default_witness :
    (aggregateCore [rr80] none).universal_weighted_score =
      max 1 (min 100
        (dimMeanOrZero [rr80] "factual_accuracy" * (30 / 100) +
          dimMeanOrZero [rr80] "completeness" * (25 / 100) +
          dimMeanOrZero [rr80] "clarity_structure" * (20 / 100) +
          dimMeanOrZero [rr80] "language_quality" * (15 / 100) +
          dimMeanOrZero [rr80] "usability" * (10 / 100))) :=
  C4_universal_blend_zero_default rr80 [] none

/-! ## Claim C9 — failed judges: excluded from aggregation, cost still counted -/

theorem totalJudgeCost_foldl (js : List (Option Judgment)) (a : ℚ) :
    js.foldl (fun acc j => match j with | none => acc | some j => acc + j.cost) a =
      a + ((js.filterMap id).map (fun j => j.cost)).sum := by
  induction js generalizing a with
  | nil => simp
  | cons j tl ih => cases j <;> simp [ih] <;> ring

theorem validJudgments_foldl (js : List (Option Judgment)) (acc : List Judgment) :
    js.foldl (fun acc j =>
        match j with
        | none => acc
        | some j => if j.error.isSome then acc else acc ++ [j]) acc =
      acc ++ (js.filterMap id).filter (fun j => j.error.isNone) := by
  induction js generalizing acc with
  | nil => simp
  | cons j tl ih =>
    cases j with
    | none => simp [ih]
    | some j => cases herr : j.error <;> simp [ih, herr]

theorem validJudgments_eq (js : List (Option Judgment)) :
    validJudgments js = (js.filterMap id).filter (fun j => j.error.isNone) := by
  simpa using validJudgments_foldl js []

theorem totalJudgeCostOf_eq (js : List (Option Judgment)) :
    totalJudgeCostOf js = ((js.filterMap id).map (fun j => j.cost)).sum := by
  simpa using totalJudgeCost_foldl js 0

/-- C9: in the consensus evaluation, (i) `total_judge_cost` sums the cost of
*every* non-exception judgment, failed ones included; (ii) `judge_count`
counts only the error-free judgments, and every aggregated dimension draws
on at most that many judgments (failed judges never contribute scores);
(iii) when every judge failed, the result carries
`error = "All judge models failed"` and empty aggregates, with the failed
judges' costs still totalled; and (iv) a failed judgment's recorded cost is
the incurred generation cost — the client-reported cost (`0` on the
client's own terminal error path, where `generate` returns `cost = 0.0`)
after the pricing recomputation for non-provider-error failures. -/
theorem consensusAggregate_total (js : List (Option Judgment)) :
    (consensusAggregate js).total_judge_cost = totalJudgeCostOf js := by
  unfold consensusAggregate
  dsimp only
  split <;> rfl

theorem consensusAggregate_count (js : List (Option Judgment)) :
    (consensusAggregate js).judge_count = (validJudgments js).length := by
  unfold consensusAggregate
  dsimp only
  split
  · next h => simp [List.isEmpty_iff.mp h]
  · rfl

/-- C9: in the consensus evaluation, (i) `total_judge_cost` sums the cost of
*every* non-exception judgment, failed ones included; (ii) `judge_count`
counts only the error-free judgments, and every aggregated dimension draws
on at most that many judgments (failed judges never contribute scores);
(iii) when every judge failed, the result carries
`error = "All judge models failed"` and empty aggregates, with the failed
judges' costs still totalled; and (iv) a failed judgment's recorded cost is
the incurred generation cost — the client-reported cost (`0` on the
client's own terminal error path, where `generate` returns `cost = 0.0`)
after the pricing recomputation for non-provider-error failures. -/
theorem C9_failed_judges_cost_and_exclusion :
    (∀ js : List (Option Judgment),
      (consensusAggregate js).total_judge_cost = ((js.filterMap id).map (fun j => j.cost)).sum ∧
      (consensusAggregate js).judge_count =
        ((js.filterMap id).filter (fun j => j.error.isNone)).length ∧
      (∀ k st, (k, st) ∈ (consensusAggregate js).aggregated_scores →
        st.count ≤ (consensusAggregate js).judge_count) ∧
      ((js.filterMap id).all (fun j => j.error.isSome) = true →
        (consensusAggregate js).error = some "All judge models failed" ∧
        (consensusAggregate js).aggregated_scores = [] ∧
        (consensusAggregate js).individual_judgments = [])) ∧
    (∀ (model_id : String) (cfg : Option PricingInfo)
       (jsonLoads : List Char → Except String Json) (g : GenResult) (j : Judgment),
      judgeWithModel model_id cfg jsonLoads g = some j → j.error.isSome = true →
      j.cost = (if g.error.isSome then 0 else effectiveJudgeCost g cfg)) := by
  constructor
  · intro js
    have hval := validJudgments_eq js
    have hcost := totalJudgeCostOf_eq js
    have hallfail : (js.filterMap id).all (fun j => j.error.isSome) = true →
        validJudgments js = [] := by
      intro hall
      rw [hval, List.filter_eq_nil]
      intro j hj
      have hs := List.all_eq_true.mp hall j hj
      simp only [Option.isNone_iff_eq_none]
      intro hnone
      rw [hnone] at hs
      simp at hs
    refine ⟨by rw [consensusAggregate_total, hcost],
      by rw [consensusAggregate_count, hval], ?_, ?_⟩
    · intro k st hmem
      rw [consensusAggregate_count]
      unfold consensusAggregate at hmem
      dsimp only at hmem
      split at hmem
      · simp at hmem
      · simp only at hmem
        rcases List.mem_filterMap.mp hmem with ⟨k', _, hst⟩
        by_cases hr : k' = "reasoning".toList
        · rw [if_pos hr] at hst
          exact absurd hst (by simp)
        · rw [if_neg hr] at hst
          by_cases hemp : (keyValues (validJudgments js) k').isEmpty
          · rw [if_pos hemp] at hst
            exact absurd hst (by simp)
          · rw [if_neg hemp] at hst
            cases Option.some.inj hst
            exact List.length_filterMap_le _ _
    · intro hall
      have hnil := hallfail hall
      have hemp : (validJudgments js).isEmpty := by simp [hnil]
      unfold consensusAggregate
      rw [if_pos hemp]
      exact ⟨rfl, rfl, rfl⟩
  · intro mid cfg loads g j h hje
    unfold judgeWithModel at h
    cases herr : g.error with
    | some e =>
      rw [herr] at h
      simp only [Option.some.injEq] at h
      rw [← h]
      simp [herr]
    | none =>
      rw [herr] at h
      simp only [herr, Option.isSome_none, Bool.false_eq_true, if_false]
      by_cases hb : isBlank g.text
      · rw [if_pos hb] at h
        simp only [Option.some.injEq] at h
        rw [← h]
      · rw [if_neg hb] at h
        by_cases ht : extractJsonText g.text = []
        · rw [if_pos ht] at h
          simp only [Option.some.injEq] at h
          rw [← h]
        · rw [if_neg ht] at h
          cases hl : loads (extractJsonText g.text) with
          | error e =>
            rw [hl] at h
            simp only [Option.some.injEq] at h
            rw [← h]
          | ok d =>
            rw [hl] at h
            cases d with
            | obj fields =>
              simp only [Option.some.injEq] at h
              rw [← h] at hje
              simp at hje
            | null => simp at h
            | bool b => simp at h
            | int z => simp at h
            | float q => simp at h
            | str s2 => simp at h
            | arr xs => simp at h

/-- A judgment that failed with a recorded cost. -/
def judgmentErr : Judgment :=
  { model_id := "judge_a", error := some "boom", scores := [], cost := 5 }

/-- Witness for C9: with a single failed judge, the all-failed error is set
and the failed judge's cost is still totalled. -/
theorem C9_failed_judges_cost_and_exclusion_witness :
    (consensusAggregate [some judgmentErr]).error = some "All judge models failed" ∧
      (consensusAggregate [some judgmentErr]).total_judge_cost =
        (([some judgmentErr].filterMap id).map (fun j => j.cost)).sum := by
  have h := C9_failed_judges_cost_and_exclusion.1 [some judgmentErr]
  exact ⟨(h.2.2.2 (by decide)).1, h.1⟩

/-! ## Claim C2 (amended) — ranking ties come from the pairwise comparisons

General properties of `generate_ranking_with_significance`: the entries are
in weakly descending metric-mean order, and whenever the first comparison
found between two adjacent models is not significant, both entries are
flagged as ties, the later entry inherits the earlier one's rank, and the
earlier entry's display rank carries the `=` marker.  (CI overlap plays no
role: the counterexample above shows overlapping CIs without a comparison
produce no tie.) -/

theorem find?_congr_pred {α : Type} (p q : α → Bool) (h : ∀ x, p x = q x) :
    ∀ l : List α, l.find? p = l.find? q := by
  intro l
  induction l with
  | nil => rfl
  | cons x xs ih => rw [List.find?_cons, List.find?_cons, h x, ih]

theorem pairNotSig_symm (comps : List PairedComparisonR) (a b : String) :
    pairNotSig comps a b = pairNotSig comps b a := by
  unfold pairNotSig
  rw [find?_congr_pred _ (fun c => (c.model_a == b && c.model_b == a) ||
    (c.model_a == a && c.model_b == b)) (fun c => Bool.or_comm _ _) comps]

/-- The adjacent-entries contract of the ranking loop. -/
def TieAdj (comps : List PairedComparisonR) (e₁ e₂ : RankEntry) : Prop :=
  pairNotSig comps e₁.model_id e₂.model_id = true →
    e₂.rank = e₁.rank ∧ e₁.is_tie = true ∧ e₂.is_tie = true ∧
      e₁.display_rank = toString e₁.rank ++ "="

theorem rankLoop_models (comps : List PairedComparisonR) :
    ∀ (prev : Option (String × ℕ)) (i : ℕ) (ls : List (String × MetricWithCI)),
      (rankLoop comps prev i ls).map (fun e => (e.model_id, e.score)) = ls := by
  intro prev i ls
  induction ls generalizing prev i with
  | nil => rfl
  | cons x xs ih =>
    obtain ⟨mid, m⟩ := x
    simp [rankLoop, ih]

theorem rankLoop_chain (comps : List PairedComparisonR) :
    ∀ (prev : Option (String × ℕ)) (i : ℕ) (ls : List (String × MetricWithCI)),
      List.Chain' (TieAdj comps) (rankLoop comps prev i ls) := by
  intro prev i ls
  induction ls generalizing prev i with
  | nil => exact List.chain'_nil
  | cons x xs ih =>
    obtain ⟨mid, m⟩ := x
    rw [rankLoop]
    rw [List.chain'_cons']
    generalize (if prevTie comps mid prev = true then prevRank prev (i + 1) else i + 1) = rk
    refine ⟨?_, ih _ _⟩
    intro e₂ he₂
    cases xs with
    | nil => simp [rankLoop] at he₂
    | cons y ys =>
      obtain ⟨nid, nm⟩ := y
      rw [rankLoop] at he₂
      simp only [List.head?_cons, Option.mem_def, Option.some.injEq] at he₂
      intro hsig
      rw [← he₂] at hsig ⊢
      dsimp only at hsig ⊢
      have hsig' : pairNotSig comps mid nid = true := hsig
      have hnext : nextTie comps mid ((nid, nm) :: ys) = true := hsig'
      have hprev : prevTie comps nid (some (mid, rk)) = true := by
        show pairNotSig comps nid mid = true
        rw [pairNotSig_symm]
        exact hsig'
      rw [hprev, hnext]
      simp [prevRank]

/-- C2 amended: in `generate_ranking_with_significance`, entries are sorted
by the chosen metric's mean descending, and two adjacent models are marked
as a statistical tie — sharing the earlier model's rank, with the `=`
display marker — exactly off the precomputed pairwise comparisons: when
the first comparison found between them is not significant.  (Overlap of
the models' own confidence intervals does not enter the tie decision.) -/
theorem C2_ranking_tie_semantics :
    ∀ (model_metrics : List (String × List (String × MetricWithCI)))
      (comps : List PairedComparisonR) (metric : String),
      List.Chain' (fun e₁ e₂ : RankEntry => e₂.score.mean ≤ e₁.score.mean)
        (generateRankingWithSignificance model_metrics comps metric) ∧
      List.Chain' (TieAdj comps) (generateRankingWithSignificance model_metrics comps metric) := by
  intro mm comps metric
  constructor
  · have hsorted : List.Chain'
        (fun a b : String × List (String × MetricWithCI) =>
          (getMetricCI b.2 metric).mean ≤ (getMetricCI a.2 metric).mean)
        (sortByDescQ (fun p => (getMetricCI p.2 metric).mean) mm) := by
      haveI : IsTotal (String × List (String × MetricWithCI))
          (fun a b => (getMetricCI b.2 metric).mean ≤ (getMetricCI a.2 metric).mean) :=
        ⟨fun a b => le_total _ _⟩
      haveI : IsTrans (String × List (String × MetricWithCI))
          (fun a b => (getMetricCI b.2 metric).mean ≤ (getMetricCI a.2 metric).mean) :=
        ⟨fun _ _ _ h1 h2 => le_trans h2 h1⟩
      exact (List.sorted_insertionSort _ mm).chain'
    have hmap := rankLoop_models comps none 0
      ((sortByDescQ (fun p => (getMetricCI p.2 metric).mean) mm).map
        (fun p => (p.1, getMetricCI p.2 metric)))
    have hchain₂ : List.Chain'
        (fun a b : String × MetricWithCI => b.2.mean ≤ a.2.mean)
        ((sortByDescQ (fun p => (getMetricCI p.2 metric).mean) mm).map
          (fun p => (p.1, getMetricCI p.2 metric))) := by
      rw [List.chain'_map]
      exact hsorted
    have hchain₃ : List.Chain'
        (fun a b : String × MetricWithCI => b.2.mean ≤ a.2.mean)
        ((rankLoop comps none 0
            ((sortByDescQ (fun p => (getMetricCI p.2 metric).mean) mm).map
              (fun p => (p.1, getMetricCI p.2 metric)))).map
          (fun e => (e.model_id, e.score))) := by
      rw [hmap]
      exact hchain₂
    rw [List.chain'_map] at hchain₃
    exact hchain₃
  · exact rankLoop_chain comps none 0 _

/-- A non-significant precomputed comparison between the two tied models of
the witness configuration. -/
def cmpABnotSig : PairedComparisonR :=
  { model_a := "model_a", model_b := "model_b", metric := "content_quality_score",
    mean_diff := 0, is_significant := false, common_n := 4 }

/-- Witness for the amended C2 at a concrete two-model input with a
non-significant comparison. -/
theorem C2_ranking_tie_semantics_witness :
    List.Chain' (TieAdj [cmpABnotSig])
      (generateRankingWithSignificance [("model_a", mmTie), ("model_b", mmTie)]
        [cmpABnotSig] "content_quality") :=
  (C2_ranking_tie_semantics [("model_a", mmTie), ("model_b", mmTie)] [cmpABnotSig]
    "content_quality").2

/-! ## Claim C8 (amended) — merge semantics of the corpus dict

Infrastructure: lookup/keys lemmas for the Python-dict association list, the
last-write characterization of the merge fold, and injectivity of the
colon-joined key over colon-free fields. -/

/-- Dict lookup by key. -/
def lookupKey (d : List (List Char × MergeRecord)) (k : List Char) : Option MergeRecord :=
  (d.find? (fun p => p.1 == k)).map (fun p => p.2)

/-- The key sequence of the dict. -/
def keysOf (d : List (List Char × MergeRecord)) : List (List Char) :=
  d.map (fun p => p.1)

/-- Every stored pair's key is its record's merge key. -/
def DictInv (d : List (List Char × MergeRecord)) : Prop :=
  ∀ p ∈ d, p.1 = mergeKey p.2

instance : Nonempty MergeRecord := ⟨⟨[], [], [], 0⟩⟩

/-- The last record of `rs` carrying the merge key `k`. -/
def lastWith (rs : List MergeRecord) (k : List Char) : Option MergeRecord :=
  (rs.filter (fun r => mergeKey r == k)).getLast?

theorem lookupKey_upsert (d : List (List Char × MergeRecord)) (k k' : List Char)
    (v : MergeRecord) :
    lookupKey (dictUpsert k v d) k' = if k' = k then some v else lookupKey d k' := by
  induction d with
  | nil =>
    by_cases h : k' = k
    · subst h
      simp [dictUpsert, lookupKey, List.find?_cons]
    · have hne : (k == k') = false := beq_eq_false_iff_ne.mpr (fun he => h he.symm)
      simp [dictUpsert, lookupKey, List.find?_cons, hne, h]
  | cons p rest ih =>
    obtain ⟨pk, pv⟩ := p
    simp only [dictUpsert]
    by_cases hp : pk = k
    · rw [if_pos hp]
      subst hp
      by_cases h : k' = pk
      · subst h
        simp [lookupKey, List.find?_cons]
      · have hne : (pk == k') = false := beq_eq_false_iff_ne.mpr (fun he => h he.symm)
        simp [lookupKey, List.find?_cons, hne, h]
    · rw [if_neg hp]
      by_cases hph : pk = k'
      · have hk'k : ¬ k' = k := fun he => hp (hph.trans he)
        subst hph
        simp [lookupKey, List.find?_cons, hk'k]
      · have hne : (pk == k') = false := beq_eq_false_iff_ne.mpr hph
        simp only [lookupKey, List.find?_cons, hne]
        simpa [lookupKey] using ih

theorem keysOf_upsert_mem (d : List (List Char × MergeRecord)) (k : List Char)
    (v : MergeRecord) (h : k ∈ keysOf d) : keysOf (dictUpsert k v d) = keysOf d := by
  induction d with
  | nil => simp [keysOf] at h
  | cons p rest ih =>
    by_cases hp : p.1 = k
    · simp [dictUpsert, hp, keysOf]
    · have h' : k ∈ keysOf rest := by
        rcases List.mem_cons.mp h with he | h'
        · exact absurd he.symm hp
        · exact h'
      have ih' := ih h'
      simp [dictUpsert, hp, keysOf, ih']
      simpa [keysOf] using ih'

theorem keysOf_upsert_not_mem (d : List (List Char × MergeRecord)) (k : List Char)
    (v : MergeRecord) (h : k ∉ keysOf d) : keysOf (dictUpsert k v d) = keysOf d ++ [k] := by
  induction d with
  | nil => simp [dictUpsert, keysOf]
  | cons p rest ih =>
    have hp : p.1 ≠ k := fun he => h (by simp [keysOf, he])
    have h' : k ∉ keysOf rest := fun hm => h (by simp [keysOf] at hm ⊢; exact Or.inr hm)
    have ih' := ih h'
    simp [dictUpsert, hp, keysOf] at ih' ⊢
    simpa [keysOf] using ih'

theorem dictUpsert_not_mem (d : List (List Char × MergeRecord)) (k : List Char)
    (v : MergeRecord) (h : k ∉ keysOf d) : dictUpsert k v d = d ++ [(k, v)] := by
  induction d with
  | nil => simp [dictUpsert]
  | cons p rest ih =>
    have hp : p.1 ≠ k := fun he => h (by simp [keysOf, he])
    have h' : k ∉ keysOf rest := fun hm => h (by simp [keysOf] at hm ⊢; exact Or.inr hm)
    simp [dictUpsert, hp, ih h']

theorem nodup_keys_upsert (d : List (List Char × MergeRecord)) (k : List Char)
    (v : MergeRecord) (h : (keysOf d).Nodup) : (keysOf (dictUpsert k v d)).Nodup := by
  by_cases hm : k ∈ keysOf d
  · rw [keysOf_upsert_mem d k v hm]
    exact h
  · rw [keysOf_upsert_not_mem d k v hm]
    have hperm : List.Perm (keysOf d ++ [k]) (k :: keysOf d) :=
      List.perm_append_singleton k (keysOf d)
    exact hperm.nodup_iff.mpr (List.nodup_cons.mpr ⟨hm, h⟩)

theorem mem_of_mem_upsert {d : List (List Char × MergeRecord)} {k : List Char}
    {v : MergeRecord} {p : List Char × MergeRecord} (h : p ∈ dictUpsert k v d) :
    p = (k, v) ∨ p ∈ d := by
  induction d with
  | nil => simpa [dictUpsert] using h
  | cons q rest ih =>
    by_cases hq : q.1 = k
    · simp [dictUpsert, hq] at h
      rcases h with h | h
      · left; rw [h]
      · right; exact List.mem_cons_of_mem _ h
    · simp [dictUpsert, hq] at h
      rcases h with h | h
      · right
        rw [List.mem_cons]
        left
        rw [h]
      · rcases ih h with h' | h'
        · left; exact h'
        · right; exact List.mem_cons_of_mem _ h'

theorem dictInv_upsert {d : List (List Char × MergeRecord)} (hinv : DictInv d)
    (r : MergeRecord) : DictInv (dictUpsert (mergeKey r) r d) := by
  intro p hp
  rcases mem_of_mem_upsert hp with h | h
  · rw [h]
  · exact hinv p h

theorem recordsToDict_append (d : List (List Char × MergeRecord)) (rs : List MergeRecord)
    (r : MergeRecord) :
    recordsToDict d (rs ++ [r]) = dictUpsert (mergeKey r) r (recordsToDict d rs) := by
  simp [recordsToDict, List.foldl_append]

theorem lookupKey_recordsToDict (d : List (List Char × MergeRecord))
    (rs : List MergeRecord) (k : List Char) :
    lookupKey (recordsToDict d rs) k =
      (match lastWith rs k with
       | some r => some r
       | none => lookupKey d k) := by
  induction rs using List.reverseRecOn with
  | nil => simp [recordsToDict, lastWith]
  | append_singleton rs r ih =>
    rw [recordsToDict_append, lookupKey_upsert]
    by_cases h : k = mergeKey r
    · rw [if_pos h]
      have hb : (mergeKey r == k) = true := beq_iff_eq.mpr h.symm
      simp [lastWith, List.filter_append, hb]
    · rw [if_neg h]
      have hb : (mergeKey r == k) = false := beq_eq_false_iff_ne.mpr (fun he => h he.symm)
      simp only [lastWith, List.filter_append, List.filter_cons, hb, List.filter_nil,
        List.append_nil, Bool.false_eq_true, if_false]
      exact ih

theorem nodup_keys_recordsToDict (d : List (List Char × MergeRecord))
    (rs : List MergeRecord) (h : (keysOf d).Nodup) :
    (keysOf (recordsToDict d rs)).Nodup := by
  induction rs using List.reverseRecOn with
  | nil => exact h
  | append_singleton rs r ih =>
    rw [recordsToDict_append]
    exact nodup_keys_upsert _ _ _ ih

theorem dictInv_recordsToDict (d : List (List Char × MergeRecord))
    (rs : List MergeRecord) (h : DictInv d) : DictInv (recordsToDict d rs) := by
  induction rs using List.reverseRecOn with
  | nil => exact h
  | append_singleton rs r ih =>
    rw [recordsToDict_append]
    exact dictInv_upsert ih r

theorem mem_recordsToDict {d : List (List Char × MergeRecord)} {rs : List MergeRecord}
    {p : List Char × MergeRecord} (h : p ∈ recordsToDict d rs) : p ∈ d ∨ p.2 ∈ rs := by
  induction rs using List.reverseRecOn generalizing p with
  | nil => exact Or.inl h
  | append_singleton rs r ih =>
    rw [recordsToDict_append] at h
    rcases mem_of_mem_upsert h with h' | h'
    · right
      rw [h']
      simp
    · rcases ih h' with h'' | h''
      · exact Or.inl h''
      · right
        simp [h'']

theorem lookupKey_eq_none_of_not_mem {d : List (List Char × MergeRecord)}
    {k : List Char} (h : k ∉ keysOf d) : lookupKey d k = none := by
  induction d with
  | nil => rfl
  | cons p rest ih =>
    have hp : p.1 ≠ k := fun he => h (by simp [keysOf, he])
    have h' : k ∉ keysOf rest := fun hm => h (by simp [keysOf] at hm ⊢; exact Or.inr hm)
    have hb : (p.1 == k) = false := beq_eq_false_iff_ne.mpr hp
    simp only [lookupKey, List.find?_cons, hb]
    exact ih h'

theorem mem_keys_of_lookupKey {d : List (List Char × MergeRecord)} {k : List Char}
    {v : MergeRecord} (h : lookupKey d k = some v) : k ∈ keysOf d := by
  by_contra hm
  rw [lookupKey_eq_none_of_not_mem hm] at h
  cases h

theorem append_colon_inj :
    ∀ (a c b d : List Char), ':' ∉ a → ':' ∉ c →
      a ++ ':' :: b = c ++ ':' :: d → a = c ∧ b = d := by
  intro a
  induction a with
  | nil =>
    intro c b d _ hc h
    cases c with
    | nil => simpa using h
    | cons y cs =>
      simp only [List.nil_append, List.cons_append, List.cons.injEq] at h
      exact absurd (by rw [← h.1]; exact List.mem_cons_self _ _ : ':' ∈ y :: cs) hc
  | cons x as ih =>
    intro c b d ha hc h
    cases c with
    | nil =>
      simp only [List.nil_append, List.cons_append, List.cons.injEq] at h
      exact absurd (by rw [h.1]; exact List.mem_cons_self _ _ : ':' ∈ x :: as) ha
    | cons y cs =>
      simp only [List.cons_append, List.cons.injEq] at h
      obtain ⟨hxy, h'⟩ := h
      have ha' : ':' ∉ as := fun hm => ha (List.mem_cons_of_mem _ hm)
      have hc' : ':' ∉ cs := fun hm => hc (List.mem_cons_of_mem _ hm)
      obtain ⟨h1, h2⟩ := ih cs b d ha' hc' h'
      exact ⟨by rw [hxy, h1], h2⟩

/-- Colon-free `model_id` and `task` fields. -/
def NoColonR (r : MergeRecord) : Prop := ':' ∉ r.model_id ∧ ':' ∉ r.task

/-- Every record of the list has colon-free `model_id` and `task`. -/
def NoColonKeys (rs : List MergeRecord) : Prop := ∀ r ∈ rs, NoColonR r

theorem tripleOf_eq_of_mergeKey_eq {r₁ r₂ : MergeRecord} (h₁ : NoColonR r₁)
    (h₂ : NoColonR r₂) (h : mergeKey r₁ = mergeKey r₂) : tripleOf r₁ = tripleOf r₂ := by
  unfold mergeKey at h
  simp only [List.append_assoc, List.cons_append, List.nil_append] at h
  have h' : r₁.model_id ++ ':' :: (r₁.task ++ ':' :: r₁.test_case_id) =
      r₂.model_id ++ ':' :: (r₂.task ++ ':' :: r₂.test_case_id) := by
    simpa [List.append_assoc] using h
  obtain ⟨hm, hrest⟩ := append_colon_inj r₁.model_id r₂.model_id
    (r₁.task ++ ':' :: r₁.test_case_id) (r₂.task ++ ':' :: r₂.test_case_id)
    h₁.1 h₂.1 h'
  obtain ⟨ht, hid⟩ := append_colon_inj r₁.task r₂.task r₁.test_case_id r₂.test_case_id
    h₁.2 h₂.2 hrest
  unfold tripleOf
  rw [hm, ht, hid]

theorem mergeKey_eq_of_tripleOf_eq {r₁ r₂ : MergeRecord}
    (h : tripleOf r₁ = tripleOf r₂) : mergeKey r₁ = mergeKey r₂ := by
  have h1 : r₁.model_id = r₂.model_id := congrArg (fun t => t.1) h
  have h2 : r₁.task = r₂.task := congrArg (fun t => t.2.1) h
  have h3 : r₁.test_case_id = r₂.test_case_id := congrArg (fun t => t.2.2) h
  unfold mergeKey
  rw [h1, h2, h3]

theorem values_filter_key :
    ∀ (d : List (List Char × MergeRecord)), DictInv d → (keysOf d).Nodup →
      ∀ K : List Char,
        (d.map (fun p => p.2)).filter (fun r => mergeKey r == K) = (lookupKey d K).toList := by
  intro d
  induction d with
  | nil => intro _ _ K; rfl
  | cons p rest ih =>
    intro hinv hnd K
    have hpk : p.1 = mergeKey p.2 := hinv p (List.mem_cons_self _ _)
    have hinv' : DictInv rest := fun q hq => hinv q (List.mem_cons_of_mem _ hq)
    have hndmap : (p.1 :: keysOf rest).Nodup := by
      have h0 := hnd
      simp only [keysOf, List.map_cons] at h0
      exact h0
    have hndc := List.nodup_cons.mp hndmap
    by_cases h : mergeKey p.2 = K
    · have hb : (mergeKey p.2 == K) = true := beq_iff_eq.mpr h
      have hKrest : K ∉ keysOf rest := by
        have h0 := hndc.1
        rw [hpk, h] at h0
        exact h0
      have hrest_nil :
          (rest.map (fun p => p.2)).filter (fun r => mergeKey r == K) = [] := by
        rw [List.filter_eq_nil]
        intro r hr
        rcases List.mem_map.mp hr with ⟨q, hq, rfl⟩
        have hqk : q.1 = mergeKey q.2 := hinv' q hq
        intro hbq
        exact hKrest (by
          rw [← beq_iff_eq.mp hbq, ← hqk]
          exact List.mem_map.mpr ⟨q, hq, rfl⟩)
      have hpb : (p.1 == K) = true := by rw [hpk]; exact hb
      simp [List.filter_cons, hb, hrest_nil, lookupKey, List.find?_cons, hpb]
    · have hb : (mergeKey p.2 == K) = false := beq_eq_false_iff_ne.mpr h
      have hpb : (p.1 == K) = false := by rw [hpk]; exact hb
      simp only [List.map_cons, List.filter_cons, hb, Bool.false_eq_true, if_false,
        lookupKey, List.find?_cons, hpb]
      simpa [lookupKey] using ih hinv' hndc.2 K

theorem assoc_ext :
    ∀ (d₁ d₂ : List (List Char × MergeRecord)), keysOf d₁ = keysOf d₂ →
      (keysOf d₁).Nodup → (∀ k, lookupKey d₁ k = lookupKey d₂ k) → d₁ = d₂ := by
  intro d₁
  induction d₁ with
  | nil =>
    intro d₂ hk _ _
    cases d₂ with
    | nil => rfl
    | cons q rest₂ => simp [keysOf] at hk
  | cons p rest ih =>
    intro d₂ hk hnd hl
    cases d₂ with
    | nil => simp [keysOf] at hk
    | cons q rest₂ =>
      simp only [keysOf, List.map_cons, List.cons.injEq] at hk
      obtain ⟨hk1, hk2⟩ := hk
      have hv : p.2 = q.2 := by
        have h1 := hl p.1
        have hbp : (p.1 == p.1) = true := by simp
        have hbq : (q.1 == p.1) = true := beq_iff_eq.mpr hk1.symm
        simp [lookupKey, List.find?_cons, hbp, hbq] at h1
        exact h1
      have hndmap : (p.1 :: keysOf rest).Nodup := by
        have h0 := hnd
        simp only [keysOf, List.map_cons] at h0
        exact h0
      have hndc := List.nodup_cons.mp hndmap
      have hnotmem : p.1 ∉ keysOf rest := hndc.1
      have hk2' : keysOf rest = keysOf rest₂ := hk2
      have hnotmem₂ : p.1 ∉ keysOf rest₂ := by rw [← hk2']; exact hnotmem
      have hl' : ∀ k, lookupKey rest k = lookupKey rest₂ k := by
        intro k
        by_cases hkp : k = p.1
        · rw [hkp, lookupKey_eq_none_of_not_mem hnotmem,
            lookupKey_eq_none_of_not_mem hnotmem₂]
        · have hbp : (p.1 == k) = false := beq_eq_false_iff_ne.mpr (fun he => hkp he.symm)
          have hbq : (q.1 == k) = false := by rw [← hk1]; exact hbp
          have h2 := hl k
          simp only [lookupKey, List.find?_cons, hbp, hbq] at h2
          simpa [lookupKey] using h2
      have hpq : p = q := Prod.ext hk1 hv
      rw [hpq, ih rest₂ hk2' hndc.2 hl']

theorem keysOf_mono {d : List (List Char × MergeRecord)} {rs : List MergeRecord}
    {k : List Char} (h : k ∈ keysOf d) : k ∈ keysOf (recordsToDict d rs) := by
  induction rs using List.reverseRecOn with
  | nil => exact h
  | append_singleton rs r ih =>
    rw [recordsToDict_append]
    by_cases hm : mergeKey r ∈ keysOf (recordsToDict d rs)
    · rw [keysOf_upsert_mem _ _ _ hm]
      exact ih
    · rw [keysOf_upsert_not_mem _ _ _ hm]
      exact List.mem_append_left _ ih

theorem keysOf_recordsToDict_eq (d : List (List Char × MergeRecord))
    (rs : List MergeRecord) (h : ∀ r ∈ rs, mergeKey r ∈ keysOf d) :
    keysOf (recordsToDict d rs) = keysOf d := by
  induction rs using List.reverseRecOn with
  | nil => rfl
  | append_singleton rs r ih =>
    have h' : ∀ r' ∈ rs, mergeKey r' ∈ keysOf d := fun r' hr' =>
      h r' (List.mem_append_left _ hr')
    rw [recordsToDict_append,
      keysOf_upsert_mem _ _ _ (keysOf_mono (h r (by simp))), ih h']

theorem recordsToDict_fresh :
    ∀ (d pre : List (List Char × MergeRecord)), DictInv d →
      (∀ k ∈ keysOf d, k ∉ keysOf pre) → (keysOf d).Nodup →
      recordsToDict pre (d.map (fun p => p.2)) = pre ++ d := by
  intro d
  induction d with
  | nil => intro pre _ _ _; simp [recordsToDict]
  | cons p rest ih =>
    intro pre hinv hdisj hnd
    have hpk : p.1 = mergeKey p.2 := hinv p (List.mem_cons_self _ _)
    have hstep : recordsToDict pre ((p :: rest).map (fun p => p.2)) =
        recordsToDict (dictUpsert (mergeKey p.2) p.2 pre) (rest.map (fun p => p.2)) := rfl
    rw [hstep]
    have hnotpre : mergeKey p.2 ∉ keysOf pre := by
      rw [← hpk]
      exact hdisj p.1 (by simp [keysOf])
    rw [dictUpsert_not_mem _ _ _ hnotpre]
    have hpair : (mergeKey p.2, p.2) = p := by
      rw [← hpk]
    have hndmap : (p.1 :: keysOf rest).Nodup := by
      have h0 := hnd
      simp only [keysOf, List.map_cons] at h0
      exact h0
    have hndc := List.nodup_cons.mp hndmap
    have hinv' : DictInv rest := fun q hq => hinv q (List.mem_cons_of_mem _ hq)
    have hdisj' : ∀ k ∈ keysOf rest, k ∉ keysOf (pre ++ [(mergeKey p.2, p.2)]) := by
      intro k hk hmem
      have hkeys : keysOf (pre ++ [(mergeKey p.2, p.2)]) = keysOf pre ++ [mergeKey p.2] := by
        simp [keysOf]
      rw [hkeys] at hmem
      rcases List.mem_append.mp hmem with hmem | hmem
      · have hk0 : k ∈ keysOf (p :: rest) := by
          simp only [keysOf, List.map_cons]
          exact List.mem_cons_of_mem _ hk
        exact hdisj k hk0 hmem
      · have hkp : k = mergeKey p.2 := by simpa using hmem
        exact hndc.1 (by rw [hpk, ← hkp]; exact hk)
    rw [ih (pre ++ [(mergeKey p.2, p.2)]) hinv' hdisj' hndc.2]
    rw [hpair]
    simp

theorem dictInv_nil : DictInv [] := fun p hp => absurd hp (List.not_mem_nil p)

theorem lastWith_isSome {rs : List MergeRecord} {r : MergeRecord} (hr : r ∈ rs) :
    ∃ rl, lastWith rs (mergeKey r) = some rl := by
  have hmem : r ∈ rs.filter (fun r' => mergeKey r' == mergeKey r) :=
    List.mem_filter.mpr ⟨hr, by simp⟩
  have hne : rs.filter (fun r' => mergeKey r' == mergeKey r) ≠ [] :=
    List.ne_nil_of_mem hmem
  cases h : (rs.filter (fun r' => mergeKey r' == mergeKey r)).getLast? with
  | none => exact absurd (List.getLast?_eq_none.mp h) hne
  | some rl => exact ⟨rl, h⟩

/-- The record a member of the merged corpus comes from: the existing corpus
or the new batch. -/
theorem mem_merged {existing new : List MergeRecord} {r : MergeRecord}
    (h : r ∈ mergeResults existing new) : r ∈ existing ∨ r ∈ new := by
  unfold mergeResults at h
  rcases List.mem_map.mp h with ⟨p, hp, rfl⟩
  rcases mem_recordsToDict hp with hp' | hp'
  · rcases mem_recordsToDict hp' with hp'' | hp''
    · exact absurd hp'' (List.not_mem_nil _)
    · exact Or.inl hp''
  · exact Or.inr hp'

/-- C8 amended: provided no `model_id` or `task` contains `':'` (so the
colon-joined string key determines the identity triple), the corpus merge
is (i) idempotent — merging the same batch twice equals merging it once —
and (ii) last-write-wins with exactly one record per identity key: for
every identity key occurring in the inputs, the merged corpus's records
with that key are exactly the last new-batch record with the key when the
batch contains one, else the last existing record with it. -/
theorem C8_merge_lww_unique_idempotent :
    ∀ existing new : List MergeRecord, NoColonKeys existing → NoColonKeys new →
      mergeResults (mergeResults existing new) new = mergeResults existing new ∧
      ∀ r₀ ∈ existing ++ new,
        (mergeResults existing new).filter (fun r => decide (tripleOf r = tripleOf r₀)) =
          (match (new.filter (fun r => decide (tripleOf r = tripleOf r₀))).getLast? with
           | some rl => [rl]
           | none =>
             ((existing.filter (fun r => decide (tripleOf r = tripleOf r₀))).getLast?).toList) := by
  intro existing new hce hcn
  have hD0inv : DictInv (recordsToDict [] existing) := dictInv_recordsToDict _ _ dictInv_nil
  have hDinv : DictInv (recordsToDict (recordsToDict [] existing) new) :=
    dictInv_recordsToDict _ _ hD0inv
  have hD0nd : (keysOf (recordsToDict [] existing)).Nodup :=
    nodup_keys_recordsToDict _ _ (by simp [keysOf])
  have hDnd : (keysOf (recordsToDict (recordsToDict [] existing) new)).Nodup :=
    nodup_keys_recordsToDict _ _ hD0nd
  have hlookupD : ∀ k, lookupKey (recordsToDict (recordsToDict [] existing) new) k =
      (match lastWith new k with
       | some r => some r
       | none =>
         (match lastWith existing k with
          | some r => some r
          | none => none)) := by
    intro k
    rw [lookupKey_recordsToDict]
    cases lastWith new k with
    | some r => rfl
    | none =>
      rw [lookupKey_recordsToDict]
      cases lastWith existing k with
      | some r => rfl
      | none => rfl
  constructor
  · -- idempotence
    have hstep1 : recordsToDict [] (mergeResults existing new) =
        recordsToDict (recordsToDict [] existing) new := by
      have := recordsToDict_fresh (recordsToDict (recordsToDict [] existing) new) []
        hDinv (fun k _ => by simp [keysOf]) hDnd
      simpa [mergeResults] using this
    have hstep2 : recordsToDict (recordsToDict (recordsToDict [] existing) new) new =
        recordsToDict (recordsToDict [] existing) new := by
      apply assoc_ext
      · apply keysOf_recordsToDict_eq
        intro r hr
        obtain ⟨rl, hrl⟩ := lastWith_isSome hr
        apply mem_keys_of_lookupKey (v := rl)
        rw [hlookupD, hrl]
      · apply nodup_keys_recordsToDict
        exact hDnd
      · intro k
        rw [lookupKey_recordsToDict]
        cases hlw : lastWith new k with
        | some r =>
          rw [hlookupD, hlw]
        | none => rfl
    show (recordsToDict (recordsToDict [] (mergeResults existing new)) new).map _ =
      (recordsToDict (recordsToDict [] existing) new).map _
    rw [hstep1, hstep2]
  · -- per-key characterization
    intro r₀ hr₀
    have hc₀ : NoColonR r₀ := by
      rcases List.mem_append.mp hr₀ with h | h
      · exact hce r₀ h
      · exact hcn r₀ h
    have hpred : ∀ (r : MergeRecord), NoColonR r →
        decide (tripleOf r = tripleOf r₀) = (mergeKey r == mergeKey r₀) := by
      intro r hcr
      by_cases h : mergeKey r = mergeKey r₀
      · have ht := tripleOf_eq_of_mergeKey_eq hcr hc₀ h
        simp [h, ht]
      · have ht : ¬ tripleOf r = tripleOf r₀ := fun he => h (mergeKey_eq_of_tripleOf_eq he)
        simp [ht, beq_eq_false_iff_ne.mpr h]
    have hfm : (mergeResults existing new).filter
          (fun r => decide (tripleOf r = tripleOf r₀)) =
        (mergeResults existing new).filter (fun r => mergeKey r == mergeKey r₀) := by
      apply List.filter_congr
      intro r hr
      apply hpred
      rcases mem_merged hr with h | h
      · exact hce r h
      · exact hcn r h
    have hfn : new.filter (fun r => decide (tripleOf r = tripleOf r₀)) =
        new.filter (fun r => mergeKey r == mergeKey r₀) := by
      apply List.filter_congr
      intro r hr
      exact hpred r (hcn r hr)
    have hfe : existing.filter (fun r => decide (tripleOf r = tripleOf r₀)) =
        existing.filter (fun r => mergeKey r == mergeKey r₀) := by
      apply List.filter_congr
      intro r hr
      exact hpred r (hce r hr)
    rw [hfm, hfn, hfe]
    have hvals := values_filter_key (recordsToDict (recordsToDict [] existing) new)
      hDinv hDnd (mergeKey r₀)
    show (((recordsToDict (recordsToDict [] existing) new).map
        (fun p => p.2)).filter (fun r => mergeKey r == mergeKey r₀)) = _
    rw [hvals, hlookupD]
    have hlwn : (new.filter (fun r => mergeKey r == mergeKey r₀)).getLast? =
        lastWith new (mergeKey r₀) := rfl
    have hlwe : (existing.filter (fun r => mergeKey r == mergeKey r₀)).getLast? =
        lastWith existing (mergeKey r₀) := rfl
    rw [hlwn, hlwe]
    cases lastWith new (mergeKey r₀) with
    | some rl => rfl
    | none =>
      cases lastWith existing (mergeKey r₀) with
      | some rl => rfl
      | none => rfl

theorem C8_merge_lww_unique_idempotent_witness :
    mergeResults (mergeResults [⟨['m'], ['s'], ['t'], 0⟩]
        [⟨['m'], ['s'], ['t'], 1⟩, ⟨['m'], ['s'], ['t'], 2⟩])
      [⟨['m'], ['s'], ['t'], 1⟩, ⟨['m'], ['s'], ['t'], 2⟩] =
      mergeResults [⟨['m'], ['s'], ['t'], 0⟩]
        [⟨['m'], ['s'], ['t'], 1⟩, ⟨['m'], ['s'], ['t'], 2⟩] ∧
    (mergeResults [⟨['m'], ['s'], ['t'], 0⟩]
        [⟨['m'], ['s'], ['t'], 1⟩, ⟨['m'], ['s'], ['t'], 2⟩]).filter
      (fun r => decide (tripleOf r = tripleOf ⟨['m'], ['s'], ['t'], 0⟩)) =
      [⟨['m'], ['s'], ['t'], 2⟩] := by
  have h := C8_merge_lww_unique_idempotent [⟨['m'], ['s'], ['t'], 0⟩]
    [⟨['m'], ['s'], ['t'], 1⟩, ⟨['m'], ['s'], ['t'], 2⟩]
    (by unfold NoColonKeys NoColonR; decide)
    (by unfold NoColonKeys NoColonR; decide)
  refine ⟨h.1, ?_⟩
  have h2 := h.2 ⟨['m'], ['s'], ['t'], 0⟩ (by decide)
  rw [h2]
  decide

end Bench
